import Mathlib

/-!
# Log analyzer: rule engine and live tailer

A shallow embedding of `internal/rules/rules.go` and `internal/tailer/tailer.go`,
of `severityLevel` and `extractTimestamp` of `internal/analyzer/analyzer.go`, of
`internal/parser/parser.go` and of the alert history of
`cmd/api/handlers/handlers.go`.

Modelling conventions
* A Go string is modelled by its text, the sequence of runes Go reads from it
  (`range`, `strings.TrimSpace`, `regexp`): a Lean string. `len` of a token is
  its size in bytes in UTF-8.
* File content, file sizes, offsets and read lengths are in bytes. A byte is a
  natural number below 256; `strings.Bytes` is the UTF-8 encoding of a text and
  `strings.Text` the text of the Go string `string(bs)`, read rune by rune with
  `utf8.DecodeRune`, an invalid byte being read as U+FFFD.
* The file system is a directory and inodes; an inode says whether it can be
  opened, whether reading it fails and whether `Stat` on an open handle of it
  fails. It does not change during one poll cycle.
* `int64` sizes and offsets are natural numbers (they are never negative and
  never near `2^63`).
* The regular expression engine (`regexp.Compile`, `MatchString`) and the YAML
  decoder (`yaml.Unmarshal`) are library code: they are parameters.
* A Go `error` is its message; `none` is `nil`.
* Dereferencing a nil `m.config` panics; a panic is the result `none`.
* Locks are not modelled: every operation runs to completion on its own.
  A goroutine launched by `StartWatching` is counted by `wg`; its ticks are
  `pollCycles`.
* `Alert.Timestamp` (`time.Now()`) is wall-clock time and is left out.
-/

set_option autoImplicit false

/-! ## Library functions of package `strings` and `unicode` -/

namespace strings

/-- Go `unicode.IsSpace`: the Latin-1 spaces and the `White_Space` table. -/
def isSpace (c : Char) : Bool :=
  let n := c.toNat
  (9 ≤ n && n ≤ 13) || n == 32 || n == 0x85 || n == 0xA0 || n == 0x1680 ||
  (0x2000 ≤ n && n ≤ 0x200A) || n == 0x2028 || n == 0x2029 || n == 0x202F ||
  n == 0x205F || n == 0x3000

/-- Go `strings.TrimSpace` on the characters of a string. -/
def trimChars (cs : List Char) : List Char :=
  ((cs.dropWhile isSpace).reverse.dropWhile isSpace).reverse

/-- Go `strings.TrimSpace`. -/
def TrimSpace (s : String) : String :=
  String.mk (trimChars s.data)

/-- Go `strings.Split(s, "\n")` on the characters of a string: one segment more
than there are newlines. -/
def splitChars : List Char → List (List Char)
  | [] => [[]]
  | c :: cs =>
    if c = '\n' then [] :: splitChars cs
    else
      match splitChars cs with
      | seg :: rest => (c :: seg) :: rest
      | [] => [[c]]

/-- Go `strings.Split(s, "\n")`. -/
def SplitNewline (s : String) : List String :=
  (splitChars s.data).map String.mk

/-- Go `unicode.ToLower` on the Latin letters: ASCII, the Latin-1 capitals,
capital S with cedilla, capital dotted I and the Kelvin sign (these are all the
code points whose lower case is a letter of the severity words); every other
code point is returned unchanged. -/
def toLowerRune (c : Char) : Char :=
  let n := c.toNat
  if 65 ≤ n ∧ n ≤ 90 then Char.ofNat (n + 32)
  else if 0xC0 ≤ n ∧ n ≤ 0xDE ∧ n ≠ 0xD7 then Char.ofNat (n + 32)
  else if n = 0x15E then Char.ofNat 0x15F
  else if n = 0x130 then 'i'
  else if n = 0x212A then 'k'
  else c

/-- Go `strings.ToLower`. -/
def ToLower (s : String) : String :=
  String.mk (s.data.map toLowerRune)

/-- The loop of Go `strings.Fields`: `cur` holds the token being read, last
character first. -/
def fieldsGo (cur : List Char) : List Char → List (List Char)
  | [] => if cur = [] then [] else [cur.reverse]
  | c :: cs =>
    if isSpace c then
      if cur = [] then fieldsGo [] cs else cur.reverse :: fieldsGo [] cs
    else fieldsGo (c :: cur) cs

/-- Go `strings.Fields`: the maximal runs of characters that are not white
space. -/
def Fields (s : String) : List String :=
  (fieldsGo [] s.data).map String.mk

/-- Whether `hay` starts with `needle`. -/
def startsWithChars : List Char → List Char → Bool
  | _, [] => true
  | [], _ :: _ => false
  | h :: hs, n :: ns => h == n && startsWithChars hs ns

/-- Go `strings.Index` on characters: the position of the first occurrence of
`needle` in `hay`, `none` for -1. -/
def indexChars (needle : List Char) : List Char → Option Nat
  | [] => if startsWithChars [] needle then some 0 else none
  | c :: cs =>
    if startsWithChars (c :: cs) needle then some 0
    else
      match indexChars needle cs with
      | some i => some (i + 1)
      | none => none

/-- Go `strings.Index`; `none` is -1. -/
def Index (s substr : String) : Option Nat :=
  indexChars substr.data s.data

/-- Go `strings.Contains`. -/
def Contains (s substr : String) : Bool :=
  (Index s substr).isSome

/-- The UTF-8 encoding of a code point, the bytes Go stores for a rune. -/
def encodeRune (c : Char) : List Nat :=
  let n := c.toNat
  if n < 0x80 then [n]
  else if n < 0x800 then [0xC0 + n / 64, 0x80 + n % 64]
  else if n < 0x10000 then [0xE0 + n / 4096, 0x80 + n / 64 % 64, 0x80 + n % 64]
  else [0xF0 + n / 262144, 0x80 + n / 4096 % 64, 0x80 + n / 64 % 64, 0x80 + n % 64]

/-- Go `[]byte(s)` for a text `s`: its bytes in UTF-8. A byte is a natural
number below 256. -/
def Bytes (s : String) : List Nat :=
  s.data.flatMap encodeRune

/-- A continuation byte of UTF-8. -/
def isCont (b : Nat) : Bool :=
  0x80 ≤ b && b ≤ 0xBF

/-- Go `utf8.DecodeRune`: the code point at the start of the bytes and its
width; an invalid or incomplete sequence is U+FFFD of width 1. -/
def DecodeRune : List Nat → Nat × Nat
  | [] => (0xFFFD, 0)
  | b0 :: rest =>
    if b0 < 0x80 then (b0, 1)
    else if 0xC2 ≤ b0 ∧ b0 ≤ 0xDF then
      match rest with
      | b1 :: _ => if isCont b1 then ((b0 - 0xC0) * 64 + (b1 - 0x80), 2) else (0xFFFD, 1)
      | _ => (0xFFFD, 1)
    else if 0xE0 ≤ b0 ∧ b0 ≤ 0xEF then
      match rest with
      | b1 :: b2 :: _ =>
        if (if b0 = 0xE0 then 0xA0 else 0x80) ≤ b1 ∧ b1 ≤ (if b0 = 0xED then 0x9F else 0xBF) ∧
            isCont b2 then
          (((b0 - 0xE0) * 64 + (b1 - 0x80)) * 64 + (b2 - 0x80), 3)
        else (0xFFFD, 1)
      | _ => (0xFFFD, 1)
    else if 0xF0 ≤ b0 ∧ b0 ≤ 0xF4 then
      match rest with
      | b1 :: b2 :: b3 :: _ =>
        if (if b0 = 0xF0 then 0x90 else 0x80) ≤ b1 ∧ b1 ≤ (if b0 = 0xF4 then 0x8F else 0xBF) ∧
            isCont b2 ∧ isCont b3 then
          ((((b0 - 0xF0) * 64 + (b1 - 0x80)) * 64 + (b2 - 0x80)) * 64 + (b3 - 0x80), 4)
        else (0xFFFD, 1)
      | _ => (0xFFFD, 1)
    else (0xFFFD, 1)

/-- The runes of a byte string, read one `DecodeRune` after the other; `fuel`
bounds the number of runes. -/
def decodeFuel : Nat → List Nat → List Char
  | 0, _ => []
  | _ + 1, [] => []
  | fuel + 1, b :: bs =>
    Char.ofNat (DecodeRune (b :: bs)).1 ::
      decodeFuel fuel ((b :: bs).drop (DecodeRune (b :: bs)).2)

/-- The text of the Go string `string(bs)`: its runes as Go reads them (`range`,
`strings.TrimSpace`, `regexp`), an invalid byte being read as U+FFFD. -/
def Text (bs : List Nat) : String :=
  String.mk (decodeFuel bs.length bs)

end strings

/-! ## Package `rules` -/

namespace rules

/-- The regular expression library: `regexp.Compile` and
`(*Regexp).MatchString`. -/
structure RegexEngine where
  Regexp : Type
  Compile : String → Except String Regexp
  MatchString : Regexp → String → Bool

/-- The exported fields of `Rule`, the ones `yaml.Unmarshal` fills. -/
structure RuleDoc where
  Name : String
  Pattern : String
  ExcludePattern : String
  Severity : String
  Description : String
  Enabled : Bool
  deriving DecidableEq

/-- Go `Rule`: the exported fields and the two compiled patterns (`none` is a
nil pointer). -/
structure Rule (E : RegexEngine) extends RuleDoc where
  regex : Option E.Regexp
  excludeRegex : Option E.Regexp

/-- Go `LogFile` (`Kind` is the field `Type`). -/
structure LogFile where
  Path : String
  Kind : String
  Enabled : Bool
  deriving DecidableEq

/-- What `yaml.Unmarshal` decodes: the exported fields of `Config`. -/
structure ConfigDoc where
  Rules : List RuleDoc
  LogFiles : List LogFile
  deriving DecidableEq

/-- Go `Config`. -/
structure Config (E : RegexEngine) where
  Rules : List (Rule E)
  LogFiles : List LogFile

/-- Go `Manager`; `config = none` is the nil pointer of a manager that has
never loaded. -/
structure Manager (E : RegexEngine) where
  config : Option (Config E)
  configPath : String

/-- The value `yaml.Unmarshal` leaves in a fresh `Rule`: unexported fields keep
their zero value. -/
def Rule.ofDoc (E : RegexEngine) (d : RuleDoc) : Rule E :=
  { toRuleDoc := d, regex := none, excludeRegex := none }

/-- The value `yaml.Unmarshal` leaves in `var config Config`. -/
def Config.ofDoc (E : RegexEngine) (d : ConfigDoc) : Config E :=
  { Rules := d.Rules.map (Rule.ofDoc E), LogFiles := d.LogFiles }

/-- The loop `for i := range config.Rules` of `LoadConfig` (lines 65-80): the
patterns of enabled rules are compiled in place, the first failure returns. -/
def compileRules (E : RegexEngine) : List (Rule E) → Except String (List (Rule E))
  | [] => .ok []
  | r :: rest =>
    if r.Enabled then
      match E.Compile r.Pattern with
      | .error err => .error ("invalid regex pattern for rule " ++ r.Name ++ ": " ++ err)
      | .ok regex =>
        let r1 : Rule E := { r with regex := some regex }
        if r.ExcludePattern ≠ "" then
          match E.Compile r.ExcludePattern with
          | .error err =>
            .error ("invalid exclude pattern for rule " ++ r.Name ++ ": " ++ err)
          | .ok excludeRegex =>
            match compileRules E rest with
            | .error e => .error e
            | .ok rest1 => .ok ({ r1 with excludeRegex := some excludeRegex } :: rest1)
        else
          match compileRules E rest with
          | .error e => .error e
          | .ok rest1 => .ok (r1 :: rest1)
    else
      match compileRules E rest with
      | .error e => .error e
      | .ok rest1 => .ok (r :: rest1)

/-- Go `Manager.LoadConfig`. `readFile` is the result of
`os.ReadFile(m.configPath)` and `unmarshal` is `yaml.Unmarshal`. Returns the
error (`none` for nil) and the manager afterwards. -/
def LoadConfig (E : RegexEngine) (unmarshal : String → Except String ConfigDoc)
    (readFile : String → Except String String) (m : Manager E) :
    Option String × Manager E :=
  match readFile m.configPath with
  | .error err => (some ("failed to read config file: " ++ err), m)
  | .ok data =>
    match unmarshal data with
    | .error err => (some ("failed to parse config: " ++ err), m)
    | .ok doc =>
      let config := Config.ofDoc E doc
      match compileRules E config.Rules with
      | .error err => (some err, m)
      | .ok rules => (none, { m with config := some { config with Rules := rules } })

/-- Go `NewManager`: `none` for the nil manager returned with an error. -/
def NewManager (E : RegexEngine) (unmarshal : String → Except String ConfigDoc)
    (readFile : String → Except String String) (configPath : String) :
    Option (Manager E) × Option String :=
  let m : Manager E := { config := none, configPath := configPath }
  match LoadConfig E unmarshal readFile m with
  | (some err, _) => (none, some err)
  | (none, m1) => (some m1, none)

/-- Go `Manager.GetRules`. -/
def GetRules {E : RegexEngine} (m : Manager E) : Option (List (Rule E)) :=
  match m.config with
  | none => none
  | some config => some config.Rules

/-- Go `Manager.GetEnabledRules`. -/
def GetEnabledRules {E : RegexEngine} (m : Manager E) : Option (List (Rule E)) :=
  match m.config with
  | none => none
  | some config =>
    some (config.Rules.foldl (fun enabled rule =>
      if rule.Enabled then enabled ++ [rule] else enabled) [])

/-- Go `Manager.GetLogFiles`. -/
def GetLogFiles {E : RegexEngine} (m : Manager E) : Option (List LogFile) :=
  match m.config with
  | none => none
  | some config => some config.LogFiles

/-- Go `Manager.GetEnabledLogFiles`. -/
def GetEnabledLogFiles {E : RegexEngine} (m : Manager E) : Option (List LogFile) :=
  match m.config with
  | none => none
  | some config =>
    some (config.LogFiles.foldl (fun enabled file =>
      if file.Enabled then enabled ++ [file] else enabled) [])

/-- The test `rule.regex != nil && rule.regex.MatchString(line)`. -/
def regexMatches (E : RegexEngine) (re : Option E.Regexp) (line : String) : Bool :=
  match re with
  | none => false
  | some r => E.MatchString r line

/-- The body of the loop of `MatchRules` (lines 136-141). -/
def matchStep {E : RegexEngine} (line : String) (matched : List (Rule E)) (rule : Rule E) :
    List (Rule E) :=
  if rule.Enabled && regexMatches E rule.regex line then
    if regexMatches E rule.excludeRegex line then matched
    else matched ++ [rule]
  else matched

/-- Go `Manager.MatchRules`. -/
def MatchRules {E : RegexEngine} (m : Manager E) (line : String) : Option (List (Rule E)) :=
  match m.config with
  | none => none
  | some config => some (config.Rules.foldl (matchStep line) [])

end rules

/-! ## The files the tailer reads (package `os`, `io`) -/

namespace os

/-- A file on disk: its bytes, whether the process may open it for reading,
whether reading it fails with an I/O error, and whether `Stat` on an open
handle of it fails. -/
structure Inode where
  data : List Nat
  readable : Bool
  faulty : Bool
  statFails : Bool

/-- The file system at one instant: the directory (path to inode number) and
the inodes. -/
structure FileSys where
  lookup : String → Option Nat
  inode : Nat → Inode

/-- Go `*os.File`: an open file description. -/
structure File where
  ino : Nat
  closed : Bool
  offset : Nat
  deriving DecidableEq

/-- The errors `io.ReadFull` returns. -/
inductive ReadErr where
  | EOF
  | ErrUnexpectedEOF
  | other
  deriving DecidableEq

/-- Go `os.Stat(path)` followed by `fileInfo.Size()`, a count of bytes; `none`
is an error. -/
def Stat (fs : FileSys) (path : String) : Option Nat :=
  match fs.lookup path with
  | none => none
  | some i => some (fs.inode i).data.length

/-- Go `os.Open(path)`; `none` is an error. -/
def Open (fs : FileSys) (path : String) : Option File :=
  match fs.lookup path with
  | none => none
  | some i => if (fs.inode i).readable then some { ino := i, closed := false, offset := 0 } else none

/-- Go `(*File).Stat` followed by `Size()`, a count of bytes; `none` is an
error. -/
def File.Stat (fs : FileSys) (f : File) : Option Nat :=
  if f.closed || (fs.inode f.ino).statFails then none
  else some (fs.inode f.ino).data.length

/-- Go `(*File).Seek(pos, 0)`; `none` is an error, the handle otherwise. -/
def File.Seek (f : File) (pos : Nat) : Option File :=
  if f.closed then none else some { f with offset := pos }

/-- Go `(*File).Close`. -/
def File.Close (f : File) : File :=
  { f with closed := true }

/-- Go `io.ReadFull(file, buf)` with `len(buf) = n`: the handle afterwards, the
bytes read `buf[:n]` from the byte offset of the handle, and the error. Fewer
than `n` bytes come with `EOF` (none read) or `ErrUnexpectedEOF` (some
read). -/
def ReadFull (fs : FileSys) (f : File) (n : Nat) : File × List Nat × Option ReadErr :=
  if f.closed || (fs.inode f.ino).faulty then (f, [], some ReadErr.other)
  else
    let bytes := ((fs.inode f.ino).data.drop f.offset).take n
    let f1 : File := { f with offset := f.offset + bytes.length }
    if bytes.length = n then (f1, bytes, none)
    else if bytes.length = 0 then (f1, bytes, some ReadErr.EOF)
    else (f1, bytes, some ReadErr.ErrUnexpectedEOF)

/-- What the host answers on the creation path of `StartWatching`: the result
of `filepath.Dir`, the error of `os.MkdirAll(dir, 0755)` (`none` for nil), and
for `os.WriteFile(path, nil, 0644)` its error or the number of the inode of the
empty file it creates. -/
structure Host where
  Dir : String → String
  MkdirAll : String → Option String
  WriteFile : String → Except String Nat

/-- The test `os.IsNotExist(err)` on the error of `os.Open(path)`. -/
def IsNotExist (fs : FileSys) (path : String) : Bool :=
  (fs.lookup path).isNone

/-- The message of the error of a failed `os.Open(path)`. -/
def openError (fs : FileSys) (path : String) : String :=
  if IsNotExist fs path then "open " ++ path ++ ": no such file or directory"
  else "open " ++ path ++ ": permission denied"

/-- The file system after a successful `os.WriteFile(path, nil, 0644)` on a
path that did not exist: `path` names the inode `ino`, now an empty file;
whether it can be opened, read and stat'ed is what the file system says of this
inode. -/
def created (fs : FileSys) (path : String) (ino : Nat) : FileSys :=
  { lookup := fun p => if p = path then some ino else fs.lookup p,
    inode := fun i => if i = ino then { fs.inode i with data := [] } else fs.inode i }

/-- The message of the error of a failed `(*File).Stat`. -/
def statError (f : File) (path : String) : String :=
  if f.closed then "stat " ++ path ++ ": file already closed"
  else "stat " ++ path ++ ": input/output error"

end os

/-! ## Package `tailer` -/

namespace tailer

open rules

/-- Go `Alert` (without `Timestamp`). -/
structure Alert where
  Source : String
  LogFile : String
  Line : String
  MatchedRules : List String
  Severity : String
  deriving DecidableEq

/-- Go `fileWatcher`; `stop` tells whether the stop channel is closed. -/
structure fileWatcher where
  file : os.File
  path : String
  stop : Bool
  lastPos : Nat
  deriving DecidableEq

/-- Go `Tailer`: `alerts` is the content of the buffered channel, oldest first;
`stopChan` tells whether the channel is closed; `wg` is the counter of the wait
group; `watchers` is the map, as a list of entries. -/
structure Tailer (E : RegexEngine) where
  ruleManager : Manager E
  alerts : List Alert
  stopChan : Bool
  wg : Nat
  watchers : List (String × fileWatcher)

/-- Go `NewTailer`. -/
def NewTailer {E : RegexEngine} (ruleManager : Manager E) : Tailer E :=
  { ruleManager := ruleManager, alerts := [], stopChan := false, wg := 0, watchers := [] }

/-- Go `severityLevel` of package `tailer`. -/
def severityLevel (severity : String) : Nat :=
  let s := strings.ToLower severity
  if s = "critical" ∨ s = "kritik" then 4
  else if s = "high" ∨ s = "yüksek" then 3
  else if s = "medium" ∨ s = "orta" then 2
  else if s = "low" ∨ s = "düşük" then 1
  else 0

/-- The send `select { case t.alerts <- alert: default: }` on the channel of
capacity 100. -/
def offer (alerts : List Alert) (alert : Alert) : List Alert :=
  if alerts.length < 100 then alerts ++ [alert] else alerts

/-- The body of the loop over `matchedRules` (lines 146-153), on the pair
`(ruleNames, maxSeverity)`. -/
def severityStep {E : RegexEngine} (acc : List String × String) (rule : Rule E) :
    List String × String :=
  let ruleNames := acc.1 ++ [rule.Name]
  let ruleSevLevel := severityLevel rule.Severity
  let maxSevLevel := severityLevel acc.2
  if ruleSevLevel > maxSevLevel then (ruleNames, rule.Severity) else (ruleNames, acc.2)

/-- The alert built for a line and its matched rules (lines 144-161). -/
def buildAlert {E : RegexEngine} (path line : String) (matchedRules : List (Rule E)) : Alert :=
  let acc := matchedRules.foldl severityStep ([], "low")
  { Source := path, LogFile := path, Line := line, MatchedRules := acc.1, Severity := acc.2 }

/-- The body of the loop over the segments of a chunk (lines 138-166); a panic
(`none`) is kept. -/
def lineStep {E : RegexEngine} (path : String) (st : Option (Tailer E)) (rawLine : String) :
    Option (Tailer E) :=
  match st with
  | none => none
  | some t =>
    let line := strings.TrimSpace rawLine
    if line = "" then some t
    else
      match MatchRules t.ruleManager line with
      | none => none
      | some matchedRules =>
        if matchedRules.length > 0 then
          some { t with alerts := offer t.alerts (buildAlert path line matchedRules) }
        else some t

/-- The loop `for _, rawLine := range strings.Split(chunk, "\n")` of
`readNewLines` (lines 137-167). -/
def processChunk {E : RegexEngine} (t : Tailer E) (path chunk : String) : Option (Tailer E) :=
  (strings.SplitNewline chunk).foldl (lineStep path) (some t)

/-- Go `Tailer.reopenWatcher`. -/
def reopenWatcher (fs : os.FileSys) (watcher : fileWatcher) (newSize : Nat) : fileWatcher :=
  let closed := watcher.file.Close
  match os.Open fs watcher.path with
  | some newFile =>
    let newSize1 :=
      match newFile.Stat fs with
      | some size => size
      | none => newSize
    match newFile.Seek newSize1 with
    | some f => { watcher with file := f, lastPos := newSize1 }
    | none => { watcher with file := newFile, lastPos := newSize1 }
  | none => { watcher with file := closed }

/-- Go `Tailer.readNewLines`: one poll cycle on the file system `fs`. Sizes,
read lengths and `lastPos` are counts of bytes; the chunk `string(buf[:n])` is
processed as the text of these bytes. The result is the tailer and the watcher
afterwards, `none` if the cycle panics. -/
def readNewLines {E : RegexEngine} (t : Tailer E) (fs : os.FileSys) (watcher : fileWatcher) :
    Option (Tailer E × fileWatcher) :=
  match os.Stat fs watcher.path with
  | none => some (t, watcher)
  | some currentSize =>
    if currentSize > watcher.lastPos then
      let toRead := currentSize - watcher.lastPos
      match watcher.file.Seek watcher.lastPos with
      | none => some (t, reopenWatcher fs watcher currentSize)
      | some sought =>
        match os.ReadFull fs sought toRead with
        | (file, buf, err) =>
          if err ≠ none ∧ err ≠ some os.ReadErr.EOF ∧ err ≠ some os.ReadErr.ErrUnexpectedEOF then
            some (t, reopenWatcher fs { watcher with file := file } currentSize)
          else
            let watcher1 := { watcher with file := file, lastPos := watcher.lastPos + buf.length }
            let chunk := strings.Text buf
            match processChunk t watcher1.path chunk with
            | none => none
            | some t1 => some (t1, watcher1)
    else if currentSize < watcher.lastPos then
      some (t, reopenWatcher fs watcher currentSize)
    else some (t, watcher)

/-- The ticks of `watchFile` (lines 103-112) until a stop signal: one
`readNewLines` per tick, each on the file system as it is at that tick. -/
def pollCycles {E : RegexEngine} (t : Tailer E) (watcher : fileWatcher) :
    List os.FileSys → Option (Tailer E × fileWatcher)
  | [] => some (t, watcher)
  | fs :: rest =>
    match readNewLines t fs watcher with
    | none => none
    | some (t1, w1) => pollCycles t1 w1 rest

/-- The index expression `watchers[key]` with its `exists` result. -/
def mapIndex (watchers : List (String × fileWatcher)) (key : String) : Option fileWatcher :=
  match watchers with
  | [] => none
  | (k, w) :: rest => if k = key then some w else mapIndex rest key

/-- The builtin `delete(watchers, key)`. -/
def mapDelete (watchers : List (String × fileWatcher)) (key : String) :
    List (String × fileWatcher) :=
  watchers.filter (fun e => e.1 ≠ key)

/-- The assignment `watchers[key] = watcher`. -/
def mapAssign (watchers : List (String × fileWatcher)) (key : String) (watcher : fileWatcher) :
    List (String × fileWatcher) :=
  mapDelete watchers key ++ [(key, watcher)]

/-- The end of `StartWatching` (lines 74-93), once the file is open: the
handle is positioned at the end of the file, the watcher is registered and its
task is launched (counted by `wg`). -/
def register {E : RegexEngine} (t : Tailer E) (fs : os.FileSys) (filePath : String)
    (file : os.File) : Option String × Tailer E × os.FileSys :=
  match file.Stat fs with
  | none => (some ("failed to stat file: " ++ os.statError file filePath), t, fs)
  | some size =>
    let sought :=
      match file.Seek size with
      | some f => f
      | none => file
    let watcher : fileWatcher :=
      { file := sought, path := filePath, stop := false, lastPos := size }
    (none, { t with watchers := mapAssign t.watchers filePath watcher, wg := t.wg + 1 }, fs)

/-- Go `Tailer.StartWatching`: the error (`none` for nil), the tailer and the
file system afterwards. -/
def StartWatching {E : RegexEngine} (t : Tailer E) (fs : os.FileSys) (host : os.Host)
    (filePath : String) : Option String × Tailer E × os.FileSys :=
  match mapIndex t.watchers filePath with
  | some _ => (some ("already watching " ++ filePath), t, fs)
  | none =>
    match os.Open fs filePath with
    | some file => register t fs filePath file
    | none =>
      if os.IsNotExist fs filePath then
        let dir := host.Dir filePath
        match host.MkdirAll dir with
        | some mkErr => (some ("failed to create dir " ++ dir ++ ": " ++ mkErr), t, fs)
        | none =>
          match host.WriteFile filePath with
          | .error createErr => (some ("failed to create file: " ++ createErr), t, fs)
          | .ok ino =>
            let fs1 := os.created fs filePath ino
            match os.Open fs1 filePath with
            | some file => register t fs1 filePath file
            | none => (some ("failed to open file: " ++ os.openError fs1 filePath), t, fs1)
      else (some ("failed to open file: " ++ os.openError fs filePath), t, fs)

/-- Go `Tailer.StopWatching`: the tailer afterwards and the watcher whose stop
channel was closed, if any; closing a closed channel panics (`none`). -/
def StopWatching {E : RegexEngine} (t : Tailer E) (filePath : String) :
    Option (Tailer E × Option fileWatcher) :=
  match mapIndex t.watchers filePath with
  | some watcher =>
    if watcher.stop then none
    else some ({ t with watchers := mapDelete t.watchers filePath },
               some { watcher with stop := true })
  | none => some (t, none)

/-- Go `Tailer.GetWatchedFiles`. -/
def GetWatchedFiles {E : RegexEngine} (t : Tailer E) : List String :=
  t.watchers.foldl (fun files e => files ++ [e.1]) []

/-- Go `Tailer.IsWatching`. -/
def IsWatching {E : RegexEngine} (t : Tailer E) (filePath : String) : Bool :=
  (mapIndex t.watchers filePath).isSome

/-- The receive `alert := <-t.alerts` of the consumer on a channel that holds an
alert: the oldest alert and the channel afterwards. -/
def receive (alerts : List Alert) : Option (Alert × List Alert) :=
  match alerts with
  | [] => none
  | alert :: rest => some (alert, rest)

end tailer

/-! ## Package `analyzer` -/

namespace analyzer

/-- Go `severityLevel` of package `analyzer`. -/
def severityLevel (severity : String) : Nat :=
  let s := strings.ToLower severity
  if s = "critical" ∨ s = "kritik" then 4
  else if s = "high" ∨ s = "yüksek" then 3
  else if s = "medium" ∨ s = "orta" then 2
  else if s = "low" ∨ s = "düşük" then 1
  else 0

/-- Go `extractTimestamp`; `now` is `time.Now().Format(time.RFC3339)`, and
`len` of a string is its size in bytes. -/
def extractTimestamp (now : String) (line : String) : String :=
  let parts := strings.Fields line
  if parts.length ≥ 3 then
    if (parts.getD 0 "").utf8ByteSize ≤ 3 ∧ (parts.getD 1 "").utf8ByteSize ≤ 2 then
      parts.getD 0 "" ++ " " ++ parts.getD 1 "" ++ " " ++ parts.getD 2 ""
    else if strings.Contains (parts.getD 0 "") "T" || strings.Contains (parts.getD 0 "") "-" then
      parts.getD 0 ""
    else now
  else now

end analyzer

/-! ## Package `parser` -/

namespace parser

/-- Go `ParseLogLineToSummary`; `replaceAll pattern src repl` is
`regexp.MustCompile(pattern).ReplaceAllString(src, repl)`. -/
def ParseLogLineToSummary (replaceAll : String → String → String → String) (line : String) :
    String :=
  if line = "" then ""
  else
    let s0 := strings.TrimSpace line
    let s1 :=
      match strings.Index s0 "]: " with
      | some idx => strings.TrimSpace (String.mk (s0.data.drop (idx + 3)))
      | none =>
        match strings.Index s0 ": " with
        | some idx =>
          let after := strings.TrimSpace (String.mk (s0.data.drop (idx + 2)))
          if after ≠ "" then after else s0
        | none => s0
    let s2 := replaceAll "^[\\w\\-\\.]+\\[\\d+\\]:?\\s*" s1 ""
    let s3 := strings.TrimSpace s2
    let s4 := replaceAll "\\s+" s3 " "
    if s4 = "" then line else s4

end parser

/-! ## Package `handlers` -/

namespace handlers

/-- Go `AlertResponse` (without `Timestamp`). -/
structure AlertResponse where
  Source : String
  LogFile : String
  Line : String
  Summary : String
  MatchedRules : List String
  Severity : String
  deriving DecidableEq

/-- Go `Handler`: the retained history. The set of connections, which only
`broadcastAlert` touches, is left out. -/
structure Handler where
  alerts : List AlertResponse

/-- Go `severityToTurkish`. -/
def severityToTurkish (severity : String) : String :=
  let s := strings.TrimSpace (strings.ToLower severity)
  if s = "critical" ∨ s = "kritik" then "kritik"
  else if s = "high" ∨ s = "yüksek" then "yüksek"
  else if s = "medium" ∨ s = "orta" then "orta"
  else if s = "low" ∨ s = "düşük" then "düşük"
  else if s ≠ "" then severity
  else "düşük"

/-- The response `collectAlerts` builds for an alert (lines 128-140). -/
def toResponse (replaceAll : String → String → String → String) (alert : tailer.Alert) :
    AlertResponse :=
  let summary0 := parser.ParseLogLineToSummary replaceAll alert.Line
  let summary := if summary0 = "" then alert.Line else summary0
  { Source := alert.Source, LogFile := alert.LogFile, Line := alert.Line, Summary := summary,
    MatchedRules := alert.MatchedRules, Severity := severityToTurkish alert.Severity }

/-- The body of the loop of `collectAlerts` on one received alert (lines
127-150): the response is appended and the history cut to its last 1000. -/
def collectStep (replaceAll : String → String → String → String) (h : Handler)
    (alert : tailer.Alert) : Handler :=
  let appended := h.alerts ++ [toResponse replaceAll alert]
  if appended.length > 1000 then { h with alerts := appended.drop (appended.length - 1000) }
  else { h with alerts := appended }

/-- Go `Handler.collectAlerts` on the alerts received from the channel until
it is closed, in the order they are received. -/
def collectAlerts (replaceAll : String → String → String → String) (h : Handler)
    (received : List tailer.Alert) : Handler :=
  received.foldl (collectStep replaceAll) h

/-- The history of `NewHandler`: `make([]AlertResponse, 0)`. -/
def NewHandler : Handler :=
  { alerts := [] }

end handlers

/-! ## Concrete inputs for the examples -/

namespace Demo

open rules tailer

/-- Whether `hay` starts with `needle`. -/
def startsWith : List Char → List Char → Bool
  | _, [] => true
  | [], _ :: _ => false
  | h :: hs, n :: ns => h == n && startsWith hs ns

/-- Whether `needle` occurs in `hay`. -/
def containsChars (needle : List Char) : List Char → Bool
  | [] => startsWith [] needle
  | c :: cs => startsWith (c :: cs) needle || containsChars needle cs

/-- A small engine for the examples. It agrees with Go `regexp` on the patterns
used here: a pattern of letters, digits and spaces compiles and matches the
lines that contain it; the pattern `(` does not compile. -/
def literalEngine : RegexEngine where
  Regexp := String
  Compile := fun p =>
    if p.data.all (fun c => c.isAlphanum || c == ' ') then .ok p
    else .error "error parsing regexp"
  MatchString := fun re s => containsChars re.data s.data

/-- An enabled rule of the examples. -/
def mkRule (name pattern exclude severity : String) (enabled : Bool) : RuleDoc :=
  { Name := name, Pattern := pattern, ExcludePattern := exclude, Severity := severity,
    Description := "", Enabled := enabled }

/-- Three rules: an enabled one with an exclude pattern, a disabled one whose
pattern does not compile, and an enabled critical one. -/
def demoDoc : ConfigDoc :=
  { Rules := [mkRule "errors" "ERROR" "ignore" "medium" true,
              mkRule "broken" "(" "" "high" false,
              mkRule "disk" "disk" "" "critical" true],
    LogFiles := [{ Path := "app.log", Kind := "app", Enabled := true }] }

/-- A configuration whose second rule is enabled and does not compile. -/
def badDoc : ConfigDoc :=
  { Rules := [mkRule "errors" "ERROR" "" "medium" true,
              mkRule "broken" "(" "" "high" true,
              mkRule "worse" "ERROR" "(" "high" true],
    LogFiles := [] }

/-- A decoder for the two documents of the examples. -/
def demoUnmarshal (data : String) : Except String ConfigDoc :=
  if data = "demo" then .ok demoDoc
  else if data = "bad" then .ok badDoc
  else .error "yaml: unmarshal errors"

/-- The configuration files of the examples. -/
def demoReadFile (path : String) : Except String String :=
  if path = "rules.yaml" then .ok "demo"
  else if path = "bad.yaml" then .ok "bad"
  else if path = "junk.yaml" then .ok "junk"
  else .error "open: no such file or directory"

/-- A manager that has never loaded. -/
def freshManager (path : String) : Manager literalEngine :=
  { config := none, configPath := path }

/-- The manager after loading `rules.yaml`. -/
def demoManager : Manager literalEngine :=
  (LoadConfig literalEngine demoUnmarshal demoReadFile (freshManager "rules.yaml")).2

/-- The configuration `LoadConfig` builds from `demoDoc`. -/
def demoConfig : Config literalEngine :=
  { Rules := [{ toRuleDoc := mkRule "errors" "ERROR" "ignore" "medium" true,
                regex := some "ERROR", excludeRegex := some "ignore" },
              { toRuleDoc := mkRule "broken" "(" "" "high" false,
                regex := none, excludeRegex := none },
              { toRuleDoc := mkRule "disk" "disk" "" "critical" true,
                regex := some "disk", excludeRegex := none }],
    LogFiles := [{ Path := "app.log", Kind := "app", Enabled := true }] }

/-- A manager that holds `demoConfig` and is pointed at another file. -/
def managerAt (path : String) : Manager literalEngine :=
  { config := some demoConfig, configPath := path }

/-- A configuration with one rule whose severity is not a severity word. -/
def infoConfig : Config literalEngine :=
  { Rules := [{ toRuleDoc := mkRule "boot" "started" "" "info" true,
                regex := some "started", excludeRegex := none }],
    LogFiles := [] }

/-- A tailer over a configuration, with an empty alert queue. -/
def tailerOf (config : Config literalEngine) : Tailer literalEngine :=
  NewTailer { config := some config, configPath := "rules.yaml" }

/-- A watcher of `app.log` that has consumed `lastPos` bytes through an open
handle on inode 0. -/
def watcherAt (lastPos : Nat) : fileWatcher :=
  { file := { ino := 0, closed := false, offset := lastPos }, path := "app.log", stop := false,
    lastPos := lastPos }

/-- A file system where `app.log` is inode 0, with the given content. -/
def fsWith (data : String) : os.FileSys :=
  { lookup := fun p => if p = "app.log" then some 0 else none,
    inode := fun _ =>
      { data := strings.Bytes data, readable := true, faulty := false, statFails := false } }

/-- A file system after a rotation: `app.log` is now inode 1, an empty file the
process may not open; inode 0 is the old file. -/
def fsLocked (old : String) : os.FileSys :=
  { lookup := fun p => if p = "app.log" then some 1 else none,
    inode := fun i =>
      if i = 1 then { data := [], readable := false, faulty := false, statFails := false }
      else { data := strings.Bytes old, readable := true, faulty := false, statFails := false } }

/-- A file system after a rotation by renaming: `app.log` is now inode 1, with
the content `fresh`; inode 0 is the old file, with the content `old`. -/
def fsRotated (old fresh : String) : os.FileSys :=
  { lookup := fun p => if p = "app.log" then some 1 else none,
    inode := fun i =>
      if i = 1 then
        { data := strings.Bytes fresh, readable := true, faulty := false, statFails := false }
      else { data := strings.Bytes old, readable := true, faulty := false, statFails := false } }

/-- A text of `n` bytes: the line `ERROR old` with its newline is 10 bytes. -/
def oldLines (n : Nat) : String :=
  String.mk (List.replicate n "ERROR old\n".data).flatten

/-- A file system with two log files: `app.log` (inode 0, 500 bytes) and
`sys.log` (inode 1, 10 bytes). -/
def fsTwo : os.FileSys :=
  { lookup := fun p => if p = "app.log" then some 0 else if p = "sys.log" then some 1 else none,
    inode := fun i =>
      if i = 0 then
        { data := strings.Bytes (oldLines 50), readable := true, faulty := false,
          statFails := false }
      else
        { data := strings.Bytes (oldLines 1), readable := true, faulty := false,
          statFails := false } }

/-- A host on which directories and files can be created; new files get the
inode 7. -/
def demoHost : os.Host :=
  { Dir := fun _ => ".", MkdirAll := fun _ => none, WriteFile := fun _ => .ok 7 }

/-- A tailer that watches `app.log`, whose 500 bytes are consumed. -/
def watchingApp : Tailer literalEngine :=
  { tailerOf demoConfig with watchers := [("app.log", watcherAt 500)], wg := 1 }

/-- A queue of `n` different alerts: the line of the alert number `i` is made of
`i` letters. -/
def queueOf (n : Nat) : List Alert :=
  (List.range n).map (fun i =>
    { Source := "app.log", LogFile := "app.log", Line := String.mk (List.replicate i 'E'),
      MatchedRules := ["errors"], Severity := "medium" })

/-- A tailer whose alert queue is full. -/
def fullTailer : Tailer literalEngine :=
  { tailerOf demoConfig with alerts := queueOf 100 }

/-- A stand-in for `ReplaceAllString` in the examples: nothing is replaced. -/
def noReplace (_pattern src _repl : String) : String :=
  src

end Demo

/-! ## The specification, in its own words -/

namespace Spec

open rules tailer

/-- A pattern matches a line: it compiles and the compiled expression matches. -/
def patternMatches (E : RegexEngine) (pattern line : String) : Bool :=
  match E.Compile pattern with
  | .ok re => E.MatchString re line
  | .error _ => false

/-- A pattern does not compile. -/
def compileFails (E : RegexEngine) (pattern : String) : Bool :=
  match E.Compile pattern with
  | .ok _ => false
  | .error _ => true

/-- A configured rule qualifies for a line: it is enabled, its pattern matches
and its exclude pattern, if one is present, does not match. -/
def qualifies (E : RegexEngine) (line : String) (d : RuleDoc) : Bool :=
  d.Enabled && patternMatches E d.Pattern line &&
    !(d.ExcludePattern != "" && patternMatches E d.ExcludePattern line)

/-- A configured rule makes the load fail: it is enabled and its pattern, or
its non-empty exclude pattern, does not compile. -/
def offending (E : RegexEngine) (d : RuleDoc) : Bool :=
  d.Enabled && (compileFails E d.Pattern ||
    (d.ExcludePattern != "" && compileFails E d.ExcludePattern))

/-- The error reported for an offending rule: it names the rule. -/
def ruleError (E : RegexEngine) (d : RuleDoc) : String :=
  match E.Compile d.Pattern with
  | .error err => "invalid regex pattern for rule " ++ d.Name ++ ": " ++ err
  | .ok _ =>
    match E.Compile d.ExcludePattern with
    | .error err => "invalid exclude pattern for rule " ++ d.Name ++ ": " ++ err
    | .ok _ => ""

/-- The alert a segment of a chunk calls for: none when the trimmed text is
empty or no rule matches it, otherwise one alert whose line is the trimmed text
and whose matched rules are the names of `MatchRules(line)`, in order. -/
def segmentAlert {E : RegexEngine} (m : Manager E) (path segment : String) : Option Alert :=
  let line := strings.TrimSpace segment
  if line = "" then none
  else
    match MatchRules m line with
    | some (r :: rs) =>
      some { Source := path, LogFile := path, Line := line,
             MatchedRules := (r :: rs).map (fun x => x.Name),
             Severity := (buildAlert path line (r :: rs)).Severity }
    | _ => none

/-- The alerts a chunk calls for: one per newline-separated segment that calls
for one, in the order of the segments. -/
def chunkAlerts {E : RegexEngine} (m : Manager E) (path chunk : String) : List Alert :=
  (strings.SplitNewline chunk).filterMap (segmentAlert m path)

/-- A line is wanted: it is not empty and at least one rule matches it. -/
def wanted {E : RegexEngine} (m : Manager E) (line : String) : Bool :=
  line != "" &&
    match MatchRules m line with
    | some (_ :: _) => true
    | _ => false

end Spec

/-! ## Lemmas on the rule engine -/

section RulesLemmas

open rules

/-- What `compileRules` leaves in a rule that came from the decoder. -/
theorem compileRules_ofDoc (E : RegexEngine) :
    ∀ (docs : List RuleDoc) (rs : List (Rule E)),
      compileRules E (docs.map (Rule.ofDoc E)) = .ok rs →
      rs.map Rule.toRuleDoc = docs ∧
      ∀ r ∈ rs,
        (r.Enabled = false → r.regex = none ∧ r.excludeRegex = none) ∧
        (r.Enabled = true →
          (∃ re, E.Compile r.Pattern = .ok re ∧ r.regex = some re) ∧
          (r.ExcludePattern = "" → r.excludeRegex = none) ∧
          (r.ExcludePattern ≠ "" →
            ∃ xre, E.Compile r.ExcludePattern = .ok xre ∧ r.excludeRegex = some xre)) := by
  intro docs
  induction docs with
  | nil =>
    intro rs h
    simp [compileRules] at h
    subst h
    simp
  | cons d ds ih =>
    intro rs h
    simp only [List.map_cons, compileRules, Rule.ofDoc] at h
    cases hrest : compileRules E (ds.map (Rule.ofDoc E)) with
    | error e =>
      rw [hrest] at h
      split at h
      · split at h
        · exact absurd h (by simp)
        · split at h
          · split at h <;> exact absurd h (by simp)
          · exact absurd h (by simp)
      · exact absurd h (by simp)
    | ok rest1 =>
      obtain ⟨hmap, hall⟩ := ih rest1 hrest
      rw [hrest] at h
      split at h
      · rename_i hen
        split at h
        · exact absurd h (by simp)
        · rename_i re hc
          split at h
          · rename_i hx
            split at h
            · exact absurd h (by simp)
            · rename_i xre hcx
              simp only [Except.ok.injEq] at h
              subst h
              refine ⟨by simp [hmap], ?_⟩
              intro r hr
              rcases List.mem_cons.mp hr with rfl | hr
              · simp [hen, hx, hc, hcx]
              · exact hall r hr
          · rename_i hx
            simp only [Except.ok.injEq] at h
            subst h
            refine ⟨by simp [hmap], ?_⟩
            intro r hr
            rcases List.mem_cons.mp hr with rfl | hr
            · simp only [ne_eq, Decidable.not_not] at hx
              simp [hen, hx, hc]
            · exact hall r hr
      · rename_i hen
        simp only [Except.ok.injEq] at h
        subst h
        refine ⟨by simp [hmap], ?_⟩
        intro r hr
        rcases List.mem_cons.mp hr with rfl | hr
        · simp [hen]
        · exact hall r hr

/-- One step of `compileRules` on a decoded rule: an offending rule stops the
loop with its error, any other rule lets the loop go on. -/
theorem compileRules_step (E : RegexEngine) (d : RuleDoc) (ds : List RuleDoc) :
    (Spec.offending E d = true →
      compileRules E ((d :: ds).map (Rule.ofDoc E)) = .error (Spec.ruleError E d)) ∧
    (Spec.offending E d = false →
      (∀ e, compileRules E (ds.map (Rule.ofDoc E)) = .error e →
        compileRules E ((d :: ds).map (Rule.ofDoc E)) = .error e) ∧
      (∀ rs, compileRules E (ds.map (Rule.ofDoc E)) = .ok rs →
        ∃ r1, compileRules E ((d :: ds).map (Rule.ofDoc E)) = .ok (r1 :: rs))) := by
  simp only [List.map_cons, compileRules, Rule.ofDoc, Spec.offending, Spec.compileFails,
    Spec.ruleError]
  by_cases hen : d.Enabled = true
  · cases hc : E.Compile d.Pattern with
    | error e => simp [hen]
    | ok re =>
      by_cases hx : d.ExcludePattern = ""
      · simp only [hen, hx]
        cases compileRules E (ds.map (Rule.ofDoc E)) <;> simp [Rule.ofDoc]
      · cases hcx : E.Compile d.ExcludePattern with
        | error e => simp [hen, hx]
        | ok xre =>
          simp only [hen, hx]
          cases compileRules E (ds.map (Rule.ofDoc E)) <;> simp [Rule.ofDoc, hx]
  · simp only [hen]
    cases compileRules E (ds.map (Rule.ofDoc E)) <;> simp [Rule.ofDoc]

/-- The outcome of `compileRules` on decoded rules: the error of the first
offending rule, or success when there is none. -/
theorem compileRules_outcome (E : RegexEngine) :
    ∀ docs : List RuleDoc,
      (∀ d, docs.find? (Spec.offending E) = some d →
        compileRules E (docs.map (Rule.ofDoc E)) = .error (Spec.ruleError E d)) ∧
      (docs.find? (Spec.offending E) = none →
        ∃ rs, compileRules E (docs.map (Rule.ofDoc E)) = .ok rs) := by
  intro docs
  induction docs with
  | nil => simp [compileRules]
  | cons d ds ih =>
    obtain ⟨ih1, ih2⟩ := ih
    obtain ⟨hbad, hgood⟩ := compileRules_step E d ds
    by_cases hoff : Spec.offending E d = true
    · simp only [List.find?_cons, hoff]
      constructor
      · intro d1 hd1
        simp only [Option.some.injEq] at hd1
        subst hd1
        exact hbad hoff
      · intro h
        exact absurd h (by simp)
    · simp only [Bool.not_eq_true] at hoff
      obtain ⟨hg1, hg2⟩ := hgood hoff
      simp only [List.find?_cons, hoff]
      constructor
      · intro d1 hd1
        exact hg1 _ (ih1 d1 hd1)
      · intro hnone
        obtain ⟨rs, hrs⟩ := ih2 hnone
        obtain ⟨r1, hr1⟩ := hg2 rs hrs
        exact ⟨_, hr1⟩

/-- The error `LoadConfig` returns for a readable, parsable file. -/
theorem LoadConfig_error (E : RegexEngine) (unmarshal : String → Except String ConfigDoc)
    (readFile : String → Except String String) (m : Manager E) (data : String)
    (doc : ConfigDoc) (hread : readFile m.configPath = .ok data)
    (hparse : unmarshal data = .ok doc) :
    (LoadConfig E unmarshal readFile m).1 =
      (doc.Rules.find? (Spec.offending E)).map (Spec.ruleError E) := by
  obtain ⟨h1, h2⟩ := compileRules_outcome E doc.Rules
  simp only [LoadConfig, hread, hparse, Config.ofDoc]
  cases hf : doc.Rules.find? (Spec.offending E) with
  | some d => rw [h1 d hf]; rfl
  | none =>
    obtain ⟨rs, hrs⟩ := h2 hf
    rw [hrs]; rfl

/-- A successful `LoadConfig` installs the compiled rules of the decoded
document. -/
theorem LoadConfig_success (E : RegexEngine) (unmarshal : String → Except String ConfigDoc)
    (readFile : String → Except String String) (m : Manager E)
    (hload : (LoadConfig E unmarshal readFile m).1 = none) :
    ∃ data doc rs, readFile m.configPath = .ok data ∧ unmarshal data = .ok doc ∧
      compileRules E (doc.Rules.map (Rule.ofDoc E)) = .ok rs ∧
      (LoadConfig E unmarshal readFile m).2 =
        { m with config := some { Rules := rs, LogFiles := doc.LogFiles } } := by
  unfold LoadConfig at hload ⊢
  cases hread : readFile m.configPath with
  | error e => simp [hread] at hload
  | ok data =>
    cases hparse : unmarshal data with
    | error e => simp [hread, hparse] at hload
    | ok doc =>
      cases hrs : compileRules E (doc.Rules.map (Rule.ofDoc E)) with
      | error e => simp [hread, hparse, Config.ofDoc, hrs] at hload
      | ok rs =>
        refine ⟨data, doc, rs, rfl, hparse, hrs, ?_⟩
        simp [hparse, Config.ofDoc, hrs]

/-- A failed `LoadConfig` returns the manager it was given. -/
theorem LoadConfig_failure (E : RegexEngine) (unmarshal : String → Except String ConfigDoc)
    (readFile : String → Except String String) (m : Manager E)
    (hload : (LoadConfig E unmarshal readFile m).1 ≠ none) :
    (LoadConfig E unmarshal readFile m).2 = m := by
  unfold LoadConfig at hload ⊢
  cases hread : readFile m.configPath with
  | error e => simp
  | ok data =>
    cases hparse : unmarshal data with
    | error e => simp [hparse]
    | ok doc =>
      cases hrs : compileRules E (Config.ofDoc E doc).Rules with
      | error e => simp [hparse, hrs]
      | ok rs => simp [hread, hparse, hrs] at hload

/-- One step of `MatchRules` on a rule as `LoadConfig` leaves it: the rule is
appended exactly when it qualifies. -/
theorem matchStep_loaded {E : RegexEngine} (line : String) (acc : List (Rule E)) (r : Rule E)
    (hen : r.Enabled = true →
      (∃ re, E.Compile r.Pattern = .ok re ∧ r.regex = some re) ∧
      (r.ExcludePattern = "" → r.excludeRegex = none) ∧
      (r.ExcludePattern ≠ "" →
        ∃ xre, E.Compile r.ExcludePattern = .ok xre ∧ r.excludeRegex = some xre)) :
    matchStep line acc r =
      if Spec.qualifies E line r.toRuleDoc then acc ++ [r] else acc := by
  by_cases he : r.Enabled = true
  · obtain ⟨⟨re, hc, hre⟩, hx0, hx1⟩ := hen he
    by_cases hx : r.ExcludePattern = ""
    · have hnone := hx0 hx
      simp [matchStep, Spec.qualifies, Spec.patternMatches, regexMatches, he, hc, hre, hx, hnone]
    · obtain ⟨xre, hcx, hxre⟩ := hx1 hx
      simp only [matchStep, Spec.qualifies, Spec.patternMatches, regexMatches, he, hc, hre, hx,
        hcx, hxre]
      cases E.MatchString re line <;> cases E.MatchString xre line <;> simp [hx]
  · simp [matchStep, Spec.qualifies, he]

/-- The loop of `MatchRules` over loaded rules is a filter. -/
theorem foldl_matchStep_loaded {E : RegexEngine} (line : String) :
    ∀ (rs : List (Rule E)) (acc : List (Rule E)),
      (∀ r ∈ rs,
        (r.Enabled = false → r.regex = none ∧ r.excludeRegex = none) ∧
        (r.Enabled = true →
          (∃ re, E.Compile r.Pattern = .ok re ∧ r.regex = some re) ∧
          (r.ExcludePattern = "" → r.excludeRegex = none) ∧
          (r.ExcludePattern ≠ "" →
            ∃ xre, E.Compile r.ExcludePattern = .ok xre ∧ r.excludeRegex = some xre))) →
      rs.foldl (matchStep line) acc =
        acc ++ rs.filter (fun r => Spec.qualifies E line r.toRuleDoc) := by
  intro rs
  induction rs with
  | nil => intro acc _; simp
  | cons r rest ih =>
    intro acc h
    have hr := h r (List.mem_cons_self _ _)
    rw [List.foldl_cons, matchStep_loaded line acc r hr.2,
      ih _ (fun x hx => h x (List.mem_cons_of_mem _ hx))]
    by_cases hq : Spec.qualifies E line r.toRuleDoc = true
    · simp [hq]
    · simp [hq]

/-- Every rule the loop of `MatchRules` adds is enabled. -/
theorem foldl_matchStep_enabled {E : RegexEngine} (line : String) :
    ∀ (rs : List (Rule E)) (acc : List (Rule E)),
      (∀ r ∈ acc, r.Enabled = true) →
      ∀ r ∈ rs.foldl (matchStep line) acc, r.Enabled = true := by
  intro rs
  induction rs with
  | nil => intro acc h; simpa using h
  | cons r rest ih =>
    intro acc h
    rw [List.foldl_cons]
    apply ih
    intro x hx
    unfold matchStep at hx
    split at hx
    · rename_i hcond
      split at hx
      · exact h x hx
      · rcases List.mem_append.mp hx with hx | hx
        · exact h x hx
        · simp only [List.mem_singleton] at hx
          subst hx
          simp only [Bool.and_eq_true] at hcond
          exact hcond.1
    · exact h x hx

end RulesLemmas

/-! ## Claims on the rule engine -/

section RulesClaims

open rules

/-- C1: after a successful `LoadConfig`, `MatchRules(line)` returns exactly the
configured rules that qualify for the line (enabled, pattern matches, exclude
pattern absent or not matching), in configured order, each as often as it is
configured; a rule whose exclude pattern matches the line is never returned
and the result is empty when no rule qualifies. -/
theorem C1_matchRules_exact (E : RegexEngine) (unmarshal : String → Except String ConfigDoc)
    (readFile : String → Except String String) (m : Manager E) (data : String)
    (doc : ConfigDoc) (hread : readFile m.configPath = .ok data)
    (hparse : unmarshal data = .ok doc)
    (hload : (LoadConfig E unmarshal readFile m).1 = none) (line : String) :
    ∃ loaded matched,
      GetRules (LoadConfig E unmarshal readFile m).2 = some loaded ∧
      loaded.map Rule.toRuleDoc = doc.Rules ∧
      MatchRules (LoadConfig E unmarshal readFile m).2 line = some matched ∧
      matched = loaded.filter (fun r => Spec.qualifies E line r.toRuleDoc) ∧
      matched.map Rule.toRuleDoc = doc.Rules.filter (Spec.qualifies E line) ∧
      (∀ r ∈ matched, r.ExcludePattern ≠ "" →
        Spec.patternMatches E r.ExcludePattern line = false) ∧
      ((∀ d ∈ doc.Rules, Spec.qualifies E line d = false) → matched = []) := by
  obtain ⟨data1, doc1, rs, hread1, hparse1, hrs, hm⟩ :=
    LoadConfig_success E unmarshal readFile m hload
  have hd : data1 = data := by
    rw [hread] at hread1
    exact (Except.ok.inj hread1).symm
  subst hd
  have hdoc : doc1 = doc := by
    rw [hparse] at hparse1
    exact (Except.ok.inj hparse1).symm
  subst hdoc
  obtain ⟨hmap, hall⟩ := compileRules_ofDoc E doc1.Rules rs hrs
  have hfold := foldl_matchStep_loaded line rs [] hall
  have hfilter : (rs.filter (fun r => Spec.qualifies E line r.toRuleDoc)).map Rule.toRuleDoc =
      doc1.Rules.filter (Spec.qualifies E line) := by
    rw [← hmap, List.filter_map]
    rfl
  refine ⟨rs, rs.filter (fun r => Spec.qualifies E line r.toRuleDoc), ?_, hmap, ?_, rfl,
    hfilter, ?_, ?_⟩
  · rw [hm]; rfl
  · rw [hm]
    simp only [MatchRules, hfold, List.nil_append]
  · intro r hr hx
    have hq := (List.mem_filter.mp hr).2
    simp only [Spec.qualifies, Bool.and_eq_true, Bool.not_eq_true', Bool.and_eq_false_imp,
      bne_iff_ne, ne_eq] at hq
    exact hq.2 hx
  · intro hnone
    apply List.filter_eq_nil_iff.mpr
    intro r hr
    have hmem : r.toRuleDoc ∈ doc1.Rules := by
      rw [← hmap]
      exact List.mem_map_of_mem _ hr
    simp [hnone _ hmem]

/-- C1 at the example configuration: the line matches `errors` and `disk`; the
disabled rule is left out. -/
theorem C1_matchRules_exact_witness :
    Demo.demoReadFile (Demo.freshManager "rules.yaml").configPath = .ok "demo" ∧
    Demo.demoUnmarshal "demo" = .ok Demo.demoDoc ∧
    ∃ loaded matched,
      GetRules Demo.demoManager = some loaded ∧
      loaded.map Rule.toRuleDoc = Demo.demoDoc.Rules ∧
      MatchRules Demo.demoManager "ERROR disk failure" = some matched ∧
      matched = loaded.filter
        (fun r => Spec.qualifies Demo.literalEngine "ERROR disk failure" r.toRuleDoc) ∧
      matched.map Rule.toRuleDoc =
        Demo.demoDoc.Rules.filter (Spec.qualifies Demo.literalEngine "ERROR disk failure") ∧
      (∀ r ∈ matched, r.ExcludePattern ≠ "" →
        Spec.patternMatches Demo.literalEngine r.ExcludePattern "ERROR disk failure" = false) ∧
      ((∀ d ∈ Demo.demoDoc.Rules,
        Spec.qualifies Demo.literalEngine "ERROR disk failure" d = false) → matched = []) :=
  ⟨rfl, rfl, C1_matchRules_exact Demo.literalEngine Demo.demoUnmarshal Demo.demoReadFile
    (Demo.freshManager "rules.yaml") "demo" Demo.demoDoc rfl rfl (by decide)
    "ERROR disk failure"⟩

end RulesClaims

section RulesClaims2

open rules

/-- C2: a rule with `enabled=false` is never in the result of `MatchRules`,
whatever the configuration held by the manager and whatever its pattern; and
after a successful `LoadConfig` no disabled rule carries a compiled pattern. -/
theorem C2_disabled_never_matches (E : RegexEngine) (m0 : Manager E) (config : Config E)
    (hconfig : m0.config = some config) (line : String)
    (unmarshal : String → Except String ConfigDoc)
    (readFile : String → Except String String) (m : Manager E)
    (hload : (LoadConfig E unmarshal readFile m).1 = none) :
    (∃ matched, MatchRules m0 line = some matched ∧
      (∀ r ∈ matched, r.Enabled = true) ∧
      (∀ r ∈ config.Rules, r.Enabled = false → r ∉ matched)) ∧
    (∃ loaded, GetRules (LoadConfig E unmarshal readFile m).2 = some loaded ∧
      ∀ r ∈ loaded, r.Enabled = false → r.regex = none ∧ r.excludeRegex = none) := by
  constructor
  · have hen := foldl_matchStep_enabled line config.Rules [] (by simp)
    refine ⟨config.Rules.foldl (matchStep line) [], ?_, hen, ?_⟩
    · simp [MatchRules, hconfig]
    · intro r _ hdis hmem
      rw [hen r hmem] at hdis
      exact absurd hdis (by simp)
  · obtain ⟨data, doc, rs, _, _, hrs, hm⟩ := LoadConfig_success E unmarshal readFile m hload
    obtain ⟨_, hall⟩ := compileRules_ofDoc E doc.Rules rs hrs
    refine ⟨rs, ?_, fun r hr => (hall r hr).1⟩
    rw [hm]; rfl

/-- C2 at the example configuration, whose disabled rule `broken` has a pattern
that does not compile. -/
theorem C2_disabled_never_matches_witness :
    Demo.demoManager.config = some Demo.demoConfig ∧
    (LoadConfig Demo.literalEngine Demo.demoUnmarshal Demo.demoReadFile
      (Demo.freshManager "rules.yaml")).1 = none ∧
    Spec.compileFails Demo.literalEngine "(" = true ∧
    (∃ matched, MatchRules Demo.demoManager "ERROR ( disk" = some matched ∧
      (∀ r ∈ matched, r.Enabled = true) ∧
      (∀ r ∈ Demo.demoConfig.Rules, r.Enabled = false → r ∉ matched)) ∧
    (∃ loaded, GetRules Demo.demoManager = some loaded ∧
      ∀ r ∈ loaded, r.Enabled = false → r.regex = none ∧ r.excludeRegex = none) :=
  ⟨rfl, by decide, by decide,
    C2_disabled_never_matches Demo.literalEngine Demo.demoManager Demo.demoConfig rfl
      "ERROR ( disk" Demo.demoUnmarshal Demo.demoReadFile (Demo.freshManager "rules.yaml")
      (by decide)⟩

/-- C3: a failed `LoadConfig` leaves the manager as it was: `GetRules`,
`GetEnabledRules`, `GetLogFiles`, `GetEnabledLogFiles` and `MatchRules` return
what they returned before the load. -/
theorem C3_failed_load_keeps_state (E : RegexEngine)
    (unmarshal : String → Except String ConfigDoc)
    (readFile : String → Except String String) (m : Manager E)
    (hfail : (LoadConfig E unmarshal readFile m).1 ≠ none) :
    (LoadConfig E unmarshal readFile m).2 = m ∧
    GetRules (LoadConfig E unmarshal readFile m).2 = GetRules m ∧
    GetEnabledRules (LoadConfig E unmarshal readFile m).2 = GetEnabledRules m ∧
    GetLogFiles (LoadConfig E unmarshal readFile m).2 = GetLogFiles m ∧
    GetEnabledLogFiles (LoadConfig E unmarshal readFile m).2 = GetEnabledLogFiles m ∧
    ∀ line, MatchRules (LoadConfig E unmarshal readFile m).2 line = MatchRules m line := by
  have h := LoadConfig_failure E unmarshal readFile m hfail
  rw [h]
  exact ⟨rfl, rfl, rfl, rfl, rfl, fun _ => rfl⟩

/-- C3 at three failing loads over a manager that holds the example
configuration: a missing file, a file that does not parse, and a file with a
pattern that does not compile. -/
theorem C3_failed_load_keeps_state_witness :
    ((LoadConfig Demo.literalEngine Demo.demoUnmarshal Demo.demoReadFile
      (Demo.managerAt "missing.yaml")).1 =
        some "failed to read config file: open: no such file or directory" ∧
     (LoadConfig Demo.literalEngine Demo.demoUnmarshal Demo.demoReadFile
      (Demo.managerAt "junk.yaml")).1 =
        some "failed to parse config: yaml: unmarshal errors" ∧
     (LoadConfig Demo.literalEngine Demo.demoUnmarshal Demo.demoReadFile
      (Demo.managerAt "bad.yaml")).1 =
        some "invalid regex pattern for rule broken: error parsing regexp") ∧
    (LoadConfig Demo.literalEngine Demo.demoUnmarshal Demo.demoReadFile
      (Demo.managerAt "missing.yaml")).2 = Demo.managerAt "missing.yaml" ∧
    (LoadConfig Demo.literalEngine Demo.demoUnmarshal Demo.demoReadFile
      (Demo.managerAt "junk.yaml")).2 = Demo.managerAt "junk.yaml" ∧
    (LoadConfig Demo.literalEngine Demo.demoUnmarshal Demo.demoReadFile
      (Demo.managerAt "bad.yaml")).2 = Demo.managerAt "bad.yaml" :=
  ⟨⟨by decide, by decide, by decide⟩,
    (C3_failed_load_keeps_state Demo.literalEngine Demo.demoUnmarshal Demo.demoReadFile
      (Demo.managerAt "missing.yaml") (by decide)).1,
    (C3_failed_load_keeps_state Demo.literalEngine Demo.demoUnmarshal Demo.demoReadFile
      (Demo.managerAt "junk.yaml") (by decide)).1,
    (C3_failed_load_keeps_state Demo.literalEngine Demo.demoUnmarshal Demo.demoReadFile
      (Demo.managerAt "bad.yaml") (by decide)).1⟩

end RulesClaims2

section RulesClaims3

open rules

/-- C4: for a readable, parsable configuration, `LoadConfig` fails exactly when
some enabled rule has a pattern, or a non-empty exclude pattern, that does not
compile; the error is the one of the first such rule in configured order and
carries its name; rules that are disabled never make the load fail. -/
theorem C4_load_fails_iff_offending (E : RegexEngine)
    (unmarshal : String → Except String ConfigDoc)
    (readFile : String → Except String String) (m : Manager E) (data : String)
    (doc : ConfigDoc) (hread : readFile m.configPath = .ok data)
    (hparse : unmarshal data = .ok doc) :
    ((LoadConfig E unmarshal readFile m).1 ≠ none ↔
      ∃ d ∈ doc.Rules, d.Enabled = true ∧
        (Spec.compileFails E d.Pattern = true ∨
          (d.ExcludePattern ≠ "" ∧ Spec.compileFails E d.ExcludePattern = true))) ∧
    (LoadConfig E unmarshal readFile m).1 =
      (doc.Rules.find? (Spec.offending E)).map (Spec.ruleError E) ∧
    (∀ err, (LoadConfig E unmarshal readFile m).1 = some err →
      ∃ d detail, doc.Rules.find? (Spec.offending E) = some d ∧
        (err = "invalid regex pattern for rule " ++ d.Name ++ ": " ++ detail ∨
         err = "invalid exclude pattern for rule " ++ d.Name ++ ": " ++ detail)) ∧
    ((∀ d ∈ doc.Rules, d.Enabled = true →
        Spec.compileFails E d.Pattern = false ∧
        (d.ExcludePattern ≠ "" → Spec.compileFails E d.ExcludePattern = false)) →
      (LoadConfig E unmarshal readFile m).1 = none) := by
  have herr := LoadConfig_error E unmarshal readFile m data doc hread hparse
  have hiff : (LoadConfig E unmarshal readFile m).1 ≠ none ↔
      ∃ d ∈ doc.Rules, Spec.offending E d = true := by
    rw [herr]
    cases hf : doc.Rules.find? (Spec.offending E) with
    | none =>
      simp only [Option.map_none', ne_eq, not_true_eq_false, false_iff, not_exists, not_and]
      intro d hd
      exact List.find?_eq_none.mp hf d hd
    | some d =>
      simp only [Option.map_some', ne_eq, reduceCtorEq, not_false_eq_true, true_iff]
      exact ⟨d, List.mem_of_find?_eq_some hf, List.find?_some hf⟩
  have hoff : ∀ d : RuleDoc, Spec.offending E d = true ↔
      (d.Enabled = true ∧ (Spec.compileFails E d.Pattern = true ∨
        (d.ExcludePattern ≠ "" ∧ Spec.compileFails E d.ExcludePattern = true))) := by
    intro d
    simp [Spec.offending]
  refine ⟨?_, herr, ?_, ?_⟩
  · rw [hiff]
    constructor
    · rintro ⟨d, hd, hbad⟩
      exact ⟨d, hd, (hoff d).mp hbad⟩
    · rintro ⟨d, hd, hbad⟩
      exact ⟨d, hd, (hoff d).mpr hbad⟩
  · intro err he
    rw [herr] at he
    cases hf : doc.Rules.find? (Spec.offending E) with
    | none => simp [hf] at he
    | some d =>
      simp only [hf, Option.map_some', Option.some.injEq] at he
      have hbad := (hoff d).mp (List.find?_some hf)
      subst he
      unfold Spec.ruleError
      cases hc : E.Compile d.Pattern with
      | error e => exact ⟨d, e, rfl, Or.inl rfl⟩
      | ok re =>
        cases hcx : E.Compile d.ExcludePattern with
        | error e => exact ⟨d, e, rfl, Or.inr rfl⟩
        | ok xre =>
          simp [Spec.compileFails, hc, hcx] at hbad
  · intro hall
    by_contra hne
    obtain ⟨d, hd, hbad⟩ := hiff.mp hne
    obtain ⟨hen, hor⟩ := (hoff d).mp hbad
    obtain ⟨h1, h2⟩ := hall d hd hen
    rcases hor with h | ⟨hx, h⟩
    · rw [h1] at h; exact absurd h (by simp)
    · rw [h2 hx] at h; exact absurd h (by simp)

/-- C4 at the configuration `bad.yaml`: the first offending rule is `broken`,
the later offending rule `worse` is not reported. -/
theorem C4_load_fails_iff_offending_witness :
    Demo.demoReadFile (Demo.freshManager "bad.yaml").configPath = .ok "bad" ∧
    Demo.demoUnmarshal "bad" = .ok Demo.badDoc ∧
    Demo.badDoc.Rules.find? (Spec.offending Demo.literalEngine) =
      some (Demo.mkRule "broken" "(" "" "high" true) ∧
    (LoadConfig Demo.literalEngine Demo.demoUnmarshal Demo.demoReadFile
      (Demo.freshManager "bad.yaml")).1 =
      (Demo.badDoc.Rules.find? (Spec.offending Demo.literalEngine)).map
        (Spec.ruleError Demo.literalEngine) :=
  ⟨rfl, rfl, by decide,
    (C4_load_fails_iff_offending Demo.literalEngine Demo.demoUnmarshal Demo.demoReadFile
      (Demo.freshManager "bad.yaml") "bad" Demo.badDoc rfl rfl).2.1⟩

end RulesClaims3

/-! ## Severity -/

section SeverityClaims

open rules tailer

/-- The loop over the matched rules: the names are collected in order, the
severity kept is at least as high as the initial one and as every rule seen,
and it is the initial one unless some rule ranked strictly above it. -/
theorem foldl_severityStep {E : RegexEngine} :
    ∀ (matched : List (Rule E)) (names : List String) (sev : String),
      (matched.foldl severityStep (names, sev)).1 = names ++ matched.map (fun r => r.Name) ∧
      severityLevel sev ≤ severityLevel (matched.foldl severityStep (names, sev)).2 ∧
      (∀ r ∈ matched,
        severityLevel r.Severity ≤ severityLevel (matched.foldl severityStep (names, sev)).2) ∧
      ((matched.foldl severityStep (names, sev)).2 = sev ∨
        ∃ r ∈ matched, (matched.foldl severityStep (names, sev)).2 = r.Severity ∧
          severityLevel sev < severityLevel r.Severity) := by
  intro matched
  induction matched with
  | nil => intro names sev; simp
  | cons r rest ih =>
    intro names sev
    simp only [List.foldl_cons, severityStep]
    by_cases hgt : severityLevel r.Severity > severityLevel sev
    · rw [if_pos hgt]
      obtain ⟨h1, h2, h3, h4⟩ := ih (names ++ [r.Name]) r.Severity
      refine ⟨by simp [h1], by omega, ?_, ?_⟩
      · intro x hx
        rcases List.mem_cons.mp hx with rfl | hx
        · exact h2
        · exact h3 x hx
      · right
        rcases h4 with h4 | ⟨x, hx, hx1, hx2⟩
        · exact ⟨r, List.mem_cons_self _ _, h4, hgt⟩
        · exact ⟨x, List.mem_cons_of_mem _ hx, hx1, by omega⟩
    · rw [if_neg hgt]
      obtain ⟨h1, h2, h3, h4⟩ := ih (names ++ [r.Name]) sev
      refine ⟨by simp [h1], h2, ?_, ?_⟩
      · intro x hx
        rcases List.mem_cons.mp hx with rfl | hx
        · omega
        · exact h3 x hx
      · rcases h4 with h4 | ⟨x, hx, hx1, hx2⟩
        · exact Or.inl h4
        · exact Or.inr ⟨x, List.mem_cons_of_mem _ hx, hx1, hx2⟩

/-- C5, as stated, fails: a line matched only by a rule of severity `info` gives
an alert of severity `low`, which is the severity of no matched rule. -/
theorem C5_severity_not_of_a_rule :
    MatchRules (Demo.tailerOf Demo.infoConfig).ruleManager "service started" =
      some Demo.infoConfig.Rules ∧
    (processChunk (Demo.tailerOf Demo.infoConfig) "app.log" "service started\n").map
        (fun t => t.alerts.map (fun a => a.Severity)) = some ["low"] ∧
    "low" ∉ Demo.infoConfig.Rules.map (fun r => r.Severity) := by
  refine ⟨rfl, by decide, by decide⟩

/-- C5, amended: the severity of the alert built by the live path ranks at least
as high as every matched rule; it is the default `low` when no matched rule
ranks above `low`, and otherwise the severity of a matched rule (one of
maximal rank); rules of severity medium and critical give critical. -/
theorem C5_alert_severity_is_max {E : RegexEngine} (path line : String)
    (matched : List (Rule E)) :
    (∀ r ∈ matched,
      severityLevel r.Severity ≤ severityLevel (buildAlert path line matched).Severity) ∧
    ((∀ r ∈ matched, severityLevel r.Severity ≤ 1) →
      (buildAlert path line matched).Severity = "low") ∧
    ((∃ r ∈ matched, 1 < severityLevel r.Severity) →
      ∃ r ∈ matched, (buildAlert path line matched).Severity = r.Severity ∧
        ∀ x ∈ matched, severityLevel x.Severity ≤ severityLevel r.Severity) ∧
    (∀ r1 r2 : Rule E, r1.Severity = "medium" → r2.Severity = "critical" →
      (buildAlert path line [r1, r2]).Severity = "critical" ∧
      (buildAlert path line [r2, r1]).Severity = "critical") := by
  have hlow : severityLevel "low" = 1 := by decide
  obtain ⟨_, h2, h3, h4⟩ := foldl_severityStep matched [] "low"
  refine ⟨h3, ?_, ?_, ?_⟩
  · intro hall
    rcases h4 with h4 | ⟨x, hx, _, hx2⟩
    · exact h4
    · have := hall x hx
      omega
  · rintro ⟨r, hr, hgt⟩
    rcases h4 with h4 | ⟨x, hx, hx1, _⟩
    · have := h3 r hr
      rw [h4] at this
      omega
    · refine ⟨x, hx, hx1, ?_⟩
      intro y hy
      have := h3 y hy
      rw [hx1] at this
      exact this
  · intro r1 r2 hm hc
    have hmed : severityLevel "medium" = 2 := by decide
    have hcrit : severityLevel "critical" = 4 := by decide
    simp [buildAlert, severityStep, hm, hc, hlow, hmed, hcrit]

/-- C5 at the example configuration: the line is matched by `errors` (medium)
and `disk` (critical), and the alert is critical. -/
theorem C5_alert_severity_is_max_witness :
    (processChunk (Demo.tailerOf Demo.demoConfig) "app.log" "ERROR disk failure\n").map
        (fun t => t.alerts) =
      some [{ Source := "app.log", LogFile := "app.log", Line := "ERROR disk failure",
              MatchedRules := ["errors", "disk"], Severity := "critical" }] ∧
    (∀ r ∈ Demo.demoConfig.Rules.filter (fun r => r.Enabled),
      severityLevel r.Severity ≤ severityLevel
        (buildAlert "app.log" "ERROR disk failure"
          (Demo.demoConfig.Rules.filter (fun r => r.Enabled))).Severity) :=
  ⟨by decide,
    (C5_alert_severity_is_max "app.log" "ERROR disk failure"
      (Demo.demoConfig.Rules.filter (fun r => r.Enabled))).1⟩

/-- C6, as stated, fails: `kritik` is none of the four English words and its
level is 4, and `HIGH` has level 3. -/
theorem C6_other_strings_not_zero :
    ¬ (∀ s : String, s ∉ ["critical", "high", "medium", "low"] →
        tailer.severityLevel s = 0 ∧ analyzer.severityLevel s = 0) := by
  intro h
  have := (h "kritik" (by decide)).1
  exact absurd this (by decide)

/-- C6, amended: `severityLevel` (in both packages) maps critical to 4, high to
3, medium to 2, low to 1 and the empty string to 0; it reads its argument in
lower case and also knows the Turkish words kritik, yüksek, orta and düşük;
every string whose lower-case form is none of the eight words has level 0. -/
theorem C6_severityLevel_table :
    (tailer.severityLevel "critical" = 4 ∧ tailer.severityLevel "high" = 3 ∧
      tailer.severityLevel "medium" = 2 ∧ tailer.severityLevel "low" = 1 ∧
      tailer.severityLevel "" = 0) ∧
    (∀ s, analyzer.severityLevel s = tailer.severityLevel s) ∧
    (∀ s, (strings.ToLower s = "critical" ∨ strings.ToLower s = "kritik" →
        tailer.severityLevel s = 4) ∧
      (strings.ToLower s = "high" ∨ strings.ToLower s = "yüksek" →
        tailer.severityLevel s = 3) ∧
      (strings.ToLower s = "medium" ∨ strings.ToLower s = "orta" →
        tailer.severityLevel s = 2) ∧
      (strings.ToLower s = "low" ∨ strings.ToLower s = "düşük" →
        tailer.severityLevel s = 1) ∧
      (strings.ToLower s ∉ ["critical", "kritik", "high", "yüksek", "medium", "orta",
          "low", "düşük"] → tailer.severityLevel s = 0)) ∧
    (tailer.severityLevel "CRITICAL" = 4 ∧ tailer.severityLevel "High" = 3 ∧
      tailer.severityLevel "kritik" = 4 ∧ tailer.severityLevel "YÜKSEK" = 3 ∧
      tailer.severityLevel "orta" = 2 ∧ tailer.severityLevel "düşük" = 1 ∧
      tailer.severityLevel "info" = 0) := by
  refine ⟨by decide, fun _ => rfl, ?_, by decide⟩
  intro s
  refine ⟨?_, ?_, ?_, ?_, ?_⟩
  · rintro (h | h) <;> simp [tailer.severityLevel, h]
  · rintro (h | h) <;> simp [tailer.severityLevel, h]
  · rintro (h | h) <;> simp [tailer.severityLevel, h]
  · rintro (h | h) <;> simp [tailer.severityLevel, h]
  · intro h
    simp only [List.mem_cons, List.mem_singleton, List.not_mem_nil, or_false, not_or] at h
    obtain ⟨h1, h2, h3, h4, h5, h6, h7, h8⟩ := h
    simp [tailer.severityLevel, h1, h2, h3, h4, h5, h6, h7, h8]

end SeverityClaims

/-! ## The chunk loop of `readNewLines` -/

section ChunkLemmas

open rules tailer

/-- Offering alerts one by one to a queue with room for all of them appends
them. -/
theorem foldl_offer_room :
    ∀ (as : List Alert) (q : List Alert), q.length + as.length ≤ 100 →
      as.foldl offer q = q ++ as := by
  intro as
  induction as with
  | nil => intro q _; simp
  | cons a rest ih =>
    intro q h
    simp only [List.length_cons] at h
    have hlt : q.length < 100 := by omega
    rw [List.foldl_cons, offer, if_pos hlt, ih (q ++ [a]) (by simp; omega)]
    simp

/-- One step of the chunk loop when the manager holds a configuration: the
alert the segment calls for, if any, is offered. -/
theorem lineStep_loaded {E : RegexEngine} (path : String) (t : Tailer E) (config : Config E)
    (hconfig : t.ruleManager.config = some config) (segment : String) :
    lineStep path (some t) segment =
      some { t with alerts :=
        match Spec.segmentAlert t.ruleManager path segment with
        | some a => offer t.alerts a
        | none => t.alerts } := by
  have hm : ∀ line, MatchRules t.ruleManager line =
      some (config.Rules.foldl (matchStep line) []) := by
    intro line
    simp [MatchRules, hconfig]
  simp only [lineStep, Spec.segmentAlert, hm]
  by_cases hline : strings.TrimSpace segment = ""
  · simp [hline]
  · simp only [hline, if_false]
    cases hrs : config.Rules.foldl (matchStep (strings.TrimSpace segment)) [] with
    | nil => simp
    | cons r rs =>
      have hn := (foldl_severityStep (r :: rs) [] "low").1
      simp only [List.nil_append, List.foldl_cons, List.map_cons] at hn
      simp [buildAlert, hn]

/-- The chunk loop offers, in order, the alerts the segments call for. -/
theorem foldl_lineStep_loaded {E : RegexEngine} (path : String) (config : Config E) :
    ∀ (segments : List String) (t : Tailer E), t.ruleManager.config = some config →
      segments.foldl (lineStep path) (some t) =
        some { t with alerts :=
          (segments.filterMap (Spec.segmentAlert t.ruleManager path)).foldl offer t.alerts } := by
  intro segments
  induction segments with
  | nil => intro t _; simp
  | cons s rest ih =>
    intro t ht
    rw [List.foldl_cons, lineStep_loaded path t config ht s]
    have hnext := ih { t with alerts :=
        match Spec.segmentAlert t.ruleManager path s with
        | some a => offer t.alerts a
        | none => t.alerts } ht
    rw [hnext]
    cases hs : Spec.segmentAlert t.ruleManager path s with
    | none => simp [List.filterMap_cons, hs]
    | some a => simp [List.filterMap_cons, hs]

/-- The chunk loop on a tailer whose manager holds a configuration. -/
theorem processChunk_loaded {E : RegexEngine} (t : Tailer E) (config : Config E)
    (hconfig : t.ruleManager.config = some config) (path chunk : String) :
    processChunk t path chunk =
      some { t with alerts := (Spec.chunkAlerts t.ruleManager path chunk).foldl offer t.alerts } :=
  foldl_lineStep_loaded path config _ t hconfig

/-- The lines of the alerts a list of segments calls for are the wanted
trimmed segments. -/
theorem filterMap_segmentAlert_lines {E : RegexEngine} (m : Manager E) (path : String) :
    ∀ segments : List String,
      (segments.filterMap (Spec.segmentAlert m path)).map (fun a => a.Line) =
        (segments.map strings.TrimSpace).filter (Spec.wanted m) := by
  intro segments
  induction segments with
  | nil => simp
  | cons s rest ih =>
    simp only [List.filterMap_cons, List.map_cons, List.filter_cons]
    by_cases hline : strings.TrimSpace s = ""
    · simp [Spec.segmentAlert, Spec.wanted, hline, ih]
    · cases hm : MatchRules m (strings.TrimSpace s) with
      | none => simp [Spec.segmentAlert, Spec.wanted, hline, hm, ih]
      | some rs =>
        cases rs with
        | nil => simp [Spec.segmentAlert, Spec.wanted, hline, hm, ih]
        | cons r rs => simp [Spec.segmentAlert, Spec.wanted, hline, hm, ih]

end ChunkLemmas

section ChunkClaims

open rules tailer

/-- C7: while the alert queue has room, the chunk loop of `readNewLines` appends
to the queue exactly one alert per newline-separated segment whose trimmed
text is non-empty and matched by at least one rule, in the order of the
segments; the line of each alert is the trimmed text and its matched rules are
the names of `MatchRules(line)` in order; other segments give no alert. -/
theorem C7_chunk_alerts {E : RegexEngine} (t : Tailer E) (config : Config E)
    (hconfig : t.ruleManager.config = some config) (path chunk : String)
    (hroom : t.alerts.length + (Spec.chunkAlerts t.ruleManager path chunk).length ≤ 100) :
    processChunk t path chunk =
      some { t with alerts := t.alerts ++ Spec.chunkAlerts t.ruleManager path chunk } ∧
    (Spec.chunkAlerts t.ruleManager path chunk).map (fun a => a.Line) =
      ((strings.SplitNewline chunk).map strings.TrimSpace).filter (Spec.wanted t.ruleManager) ∧
    (∀ a ∈ Spec.chunkAlerts t.ruleManager path chunk,
      ∃ matched, MatchRules t.ruleManager a.Line = some matched ∧ matched ≠ [] ∧
        a.MatchedRules = matched.map (fun r => r.Name) ∧ a.Line ≠ "" ∧
        a.Source = path ∧ a.LogFile = path) := by
  refine ⟨?_, filterMap_segmentAlert_lines _ _ _, ?_⟩
  · rw [processChunk_loaded t config hconfig, foldl_offer_room _ _ hroom]
  · intro a ha
    obtain ⟨s, _, hs⟩ := List.mem_filterMap.mp ha
    unfold Spec.segmentAlert at hs
    by_cases hline : strings.TrimSpace s = ""
    · simp [hline] at hs
    · simp only [hline, if_false] at hs
      cases hm : MatchRules t.ruleManager (strings.TrimSpace s) with
      | none => simp [hm] at hs
      | some rs =>
        cases rs with
        | nil => simp [hm] at hs
        | cons r rs =>
          simp only [hm, Option.some.injEq] at hs
          subst hs
          exact ⟨r :: rs, hm, by simp, rfl, hline, rfl, rfl⟩

/-- C7 at a chunk of five segments: two call for an alert, the blank one, the
unmatched one and the excluded one do not. -/
theorem C7_chunk_alerts_witness :
    (Demo.tailerOf Demo.demoConfig).ruleManager.config = some Demo.demoConfig ∧
    Spec.chunkAlerts (Demo.tailerOf Demo.demoConfig).ruleManager "app.log"
        "  ERROR disk failure \n\nall fine\nERROR ignore me\ndisk full" =
      [{ Source := "app.log", LogFile := "app.log", Line := "ERROR disk failure",
         MatchedRules := ["errors", "disk"], Severity := "critical" },
       { Source := "app.log", LogFile := "app.log", Line := "disk full",
         MatchedRules := ["disk"], Severity := "critical" }] ∧
    processChunk (Demo.tailerOf Demo.demoConfig) "app.log"
        "  ERROR disk failure \n\nall fine\nERROR ignore me\ndisk full" =
      some { Demo.tailerOf Demo.demoConfig with
        alerts := (Demo.tailerOf Demo.demoConfig).alerts ++
          Spec.chunkAlerts (Demo.tailerOf Demo.demoConfig).ruleManager "app.log"
            "  ERROR disk failure \n\nall fine\nERROR ignore me\ndisk full" } :=
  ⟨rfl, by decide,
    (C7_chunk_alerts (Demo.tailerOf Demo.demoConfig) Demo.demoConfig rfl "app.log"
      "  ERROR disk failure \n\nall fine\nERROR ignore me\ndisk full" (by decide)).1⟩

end ChunkClaims


/-! ## Bytes and text -/

section TextLemmas

/-- The width `utf8.DecodeRune` reports is at least 1 and at most the number of
bytes. -/
theorem DecodeRune_width (b : Nat) (rest : List Nat) :
    1 ≤ (strings.DecodeRune (b :: rest)).2 ∧
      (strings.DecodeRune (b :: rest)).2 ≤ (b :: rest).length := by
  rcases rest with _ | ⟨b1, _ | ⟨b2, _ | ⟨b3, tl⟩⟩⟩ <;>
    simp only [strings.DecodeRune] <;> split_ifs <;> simp

/-- More fuel than bytes does not change the runes read. -/
theorem decodeFuel_enough :
    ∀ (f1 f2 : Nat) (bs : List Nat), bs.length ≤ f1 → bs.length ≤ f2 →
      strings.decodeFuel f1 bs = strings.decodeFuel f2 bs := by
  intro f1
  induction f1 with
  | zero =>
    intro f2 bs h1 _
    have hnil : bs = [] := List.length_eq_zero.mp (Nat.le_zero.mp h1)
    subst hnil
    cases f2 <;> rfl
  | succ n ih =>
    intro f2 bs h1 h2
    cases bs with
    | nil => cases f2 <;> rfl
    | cons b rest =>
      cases f2 with
      | zero => simp at h2
      | succ m =>
        obtain ⟨hw1, hw2⟩ := DecodeRune_width b rest
        have hlen : ((b :: rest).drop (strings.DecodeRune (b :: rest)).2).length ≤ rest.length := by
          rw [List.length_drop]
          simp only [List.length_cons] at hw2 ⊢
          omega
        simp only [List.length_cons] at h1 h2
        simp only [strings.decodeFuel]
        rw [ih m _ (by omega) (by omega)]

/-- The width of a rune that is either a sequence of `k` bytes or an invalid
byte. -/
theorem width_ite_le (C : Prop) [Decidable C] (x y k n : Nat) (hk : k ≤ n) (h1 : 1 ≤ n) :
    (if C then (x, k) else (y, 1)).2 ≤ n := by
  split
  · exact hk
  · exact h1

/-- The rune read before a newline byte does not depend on what follows the
newline, and it ends before the newline. -/
theorem DecodeRune_before_newline (b : Nat) (rest tail : List Nat) :
    strings.DecodeRune (b :: (rest ++ 10 :: tail)) = strings.DecodeRune (b :: (rest ++ [10])) ∧
      (strings.DecodeRune (b :: (rest ++ [10]))).2 ≤ (b :: rest).length := by
  have h10 : strings.isCont 10 = false := by decide
  have lo3 : ¬ ((if b = 224 then 160 else 128) ≤ 10) := by split <;> omega
  have lo4 : ¬ ((if b = 240 then 144 else 128) ≤ 10) := by split <;> omega
  simp only [strings.DecodeRune]
  by_cases h1 : b < 128
  · simp only [if_pos h1]
    simp
  · simp only [if_neg h1]
    by_cases h2 : 194 ≤ b ∧ b ≤ 223
    · simp only [if_pos h2]
      rcases rest with _ | ⟨b1, tl⟩
      · simp [h10]
      · simp only [List.cons_append]
        refine ⟨trivial, ?_⟩
        exact width_ite_le _ _ _ _ _ (by simp) (by simp)
    · simp only [if_neg h2]
      by_cases h3 : 224 ≤ b ∧ b ≤ 239
      · simp only [if_pos h3]
        rcases rest with _ | ⟨b1, _ | ⟨b2, tl⟩⟩
        · rcases tail with _ | ⟨t1, tl⟩
          · simp
          · simp [lo3]
        · simp [h10]
        · simp only [List.cons_append]
          refine ⟨trivial, ?_⟩
          exact width_ite_le _ _ _ _ _ (by simp) (by simp)
      · simp only [if_neg h3]
        by_cases h4 : 240 ≤ b ∧ b ≤ 244
        · simp only [if_pos h4]
          rcases rest with _ | ⟨b1, _ | ⟨b2, _ | ⟨b3, tl⟩⟩⟩
          · rcases tail with _ | ⟨t1, _ | ⟨t2, tl⟩⟩
            · simp
            · simp
            · simp [lo4]
          · rcases tail with _ | ⟨t1, tl⟩
            · simp
            · simp [h10]
          · simp [h10]
          · simp only [List.cons_append]
            refine ⟨trivial, ?_⟩
            exact width_ite_le _ _ _ _ _ (by simp) (by simp)
        · simp only [if_neg h4]
          simp

/-- Runes do not straddle a newline byte: the runes of bytes that hold a
newline are the runes up to and including the newline followed by the runes
after it. -/
theorem decodeFuel_append_newline :
    ∀ (n : Nat) (body tail : List Nat) (f1 f2 f3 : Nat), body.length ≤ n →
      (body ++ 10 :: tail).length ≤ f1 → (body ++ [10]).length ≤ f2 → tail.length ≤ f3 →
      strings.decodeFuel f1 (body ++ 10 :: tail) =
        strings.decodeFuel f2 (body ++ [10]) ++ strings.decodeFuel f3 tail := by
  intro n
  induction n with
  | zero =>
    intro body tail f1 f2 f3 hn h1 h2 h3
    have hnil : body = [] := List.length_eq_zero.mp (Nat.le_zero.mp hn)
    subst hnil
    simp only [List.nil_append, List.length_cons, List.length_nil] at h1 h2 ⊢
    obtain ⟨g1, rfl⟩ : ∃ g1, f1 = g1 + 1 := ⟨f1 - 1, by omega⟩
    obtain ⟨g2, rfl⟩ : ∃ g2, f2 = g2 + 1 := ⟨f2 - 1, by omega⟩
    have hd : ∀ l : List Nat, strings.DecodeRune (10 :: l) = (10, 1) := by
      intro l
      simp [strings.DecodeRune]
    simp only [strings.decodeFuel, hd, List.drop_succ_cons, List.drop_zero]
    have he : strings.decodeFuel g2 [] = [] := by cases g2 <;> rfl
    rw [he, decodeFuel_enough g1 f3 tail (by omega) h3]
    rfl
  | succ n ih =>
    intro body tail f1 f2 f3 hn h1 h2 h3
    cases body with
    | nil => exact ih [] tail f1 f2 f3 (Nat.zero_le _) h1 h2 h3
    | cons b rest =>
      simp only [List.cons_append, List.length_cons, List.length_append, List.length_nil]
        at hn h1 h2
      obtain ⟨g1, rfl⟩ : ∃ g1, f1 = g1 + 1 := ⟨f1 - 1, by omega⟩
      obtain ⟨g2, rfl⟩ : ∃ g2, f2 = g2 + 1 := ⟨f2 - 1, by omega⟩
      obtain ⟨hsame, hw⟩ := DecodeRune_before_newline b rest tail
      obtain ⟨hw1, _⟩ := DecodeRune_width b (rest ++ [10])
      show Char.ofNat (strings.DecodeRune (b :: (rest ++ 10 :: tail))).1 ::
          strings.decodeFuel g1 (List.drop (strings.DecodeRune (b :: (rest ++ 10 :: tail))).2
            (b :: (rest ++ 10 :: tail))) =
        (Char.ofNat (strings.DecodeRune (b :: (rest ++ [10]))).1 ::
          strings.decodeFuel g2 (List.drop (strings.DecodeRune (b :: (rest ++ [10]))).2
            (b :: (rest ++ [10])))) ++ strings.decodeFuel f3 tail
      rw [hsame]
      have hd1 : List.drop (strings.DecodeRune (b :: (rest ++ [10]))).2 (b :: (rest ++ 10 :: tail)) =
          List.drop (strings.DecodeRune (b :: (rest ++ [10]))).2 (b :: rest) ++ 10 :: tail := by
        exact List.drop_append_of_le_length hw
      have hd2 : List.drop (strings.DecodeRune (b :: (rest ++ [10]))).2 (b :: (rest ++ [10])) =
          List.drop (strings.DecodeRune (b :: (rest ++ [10]))).2 (b :: rest) ++ [10] := by
        exact List.drop_append_of_le_length hw
      have hlen : (List.drop (strings.DecodeRune (b :: (rest ++ [10]))).2 (b :: rest)).length ≤
          rest.length := by
        rw [List.length_drop]
        simp only [List.length_cons]
        omega
      rw [hd1, hd2, ih _ tail g1 g2 f3 (by omega)
        (by simp only [List.length_append, List.length_cons]; omega)
        (by simp only [List.length_append, List.length_cons, List.length_nil]; omega) h3]
      rfl

/-- The text of bytes that hold a newline is the text up to and including the
newline followed by the text after it. -/
theorem Text_append_newline (body tail : List Nat) :
    strings.Text ((body ++ [10]) ++ tail) = strings.Text (body ++ [10]) ++ strings.Text tail := by
  show String.mk _ = String.mk _ ++ String.mk _
  rw [List.append_assoc]
  show String.mk _ = String.mk (_ ++ _)
  rw [List.singleton_append,
    decodeFuel_append_newline body.length body tail _ (body ++ [10]).length tail.length
      (Nat.le_refl _) (Nat.le_refl _) (Nat.le_refl _) (Nat.le_refl _)]

/-- The runes of bytes that end with a newline end with a newline. -/
theorem decodeFuel_newline_last :
    ∀ (n : Nat) (body : List Nat) (f : Nat), body.length ≤ n → (body ++ [10]).length ≤ f →
      ∃ cs, strings.decodeFuel f (body ++ [10]) = cs ++ ['\n'] := by
  intro n
  induction n with
  | zero =>
    intro body f hn hf
    have hnil : body = [] := List.length_eq_zero.mp (Nat.le_zero.mp hn)
    subst hnil
    simp only [List.nil_append, List.length_cons, List.length_nil] at hf
    obtain ⟨g, rfl⟩ : ∃ g, f = g + 1 := ⟨f - 1, by omega⟩
    refine ⟨[], ?_⟩
    have hd : strings.DecodeRune [10] = (10, 1) := by decide
    simp only [strings.decodeFuel, hd, List.drop_succ_cons, List.drop_zero]
    cases g <;> rfl
  | succ n ih =>
    intro body f hn hf
    cases body with
    | nil => exact ih [] f (Nat.zero_le _) hf
    | cons b rest =>
      simp only [List.cons_append, List.length_cons, List.length_append, List.length_nil]
        at hn hf
      obtain ⟨g, rfl⟩ : ∃ g, f = g + 1 := ⟨f - 1, by omega⟩
      obtain ⟨_, hw⟩ := DecodeRune_before_newline b rest []
      obtain ⟨hw1, _⟩ := DecodeRune_width b (rest ++ [10])
      have hd2 : List.drop (strings.DecodeRune (b :: (rest ++ [10]))).2 (b :: (rest ++ [10])) =
          List.drop (strings.DecodeRune (b :: (rest ++ [10]))).2 (b :: rest) ++ [10] := by
        exact List.drop_append_of_le_length hw
      have hlen : (List.drop (strings.DecodeRune (b :: (rest ++ [10]))).2 (b :: rest)).length ≤
          rest.length := by
        rw [List.length_drop]
        simp only [List.length_cons]
        omega
      obtain ⟨cs, hcs⟩ := ih (List.drop (strings.DecodeRune (b :: (rest ++ [10]))).2 (b :: rest)) g
        (by omega)
        (by simp only [List.length_append, List.length_cons, List.length_nil]; omega)
      refine ⟨Char.ofNat (strings.DecodeRune (b :: (rest ++ [10]))).1 :: cs, ?_⟩
      show Char.ofNat (strings.DecodeRune (b :: (rest ++ [10]))).1 ::
          strings.decodeFuel g (List.drop (strings.DecodeRune (b :: (rest ++ [10]))).2
            (b :: (rest ++ [10]))) = _
      rw [hd2, hcs]
      rfl

/-- The text of bytes that end with a newline ends with a newline. -/
theorem Text_newline_last (body : List Nat) :
    ∃ cs, strings.Text (body ++ [10]) = String.mk (cs ++ ['\n']) := by
  obtain ⟨cs, hcs⟩ := decodeFuel_newline_last body.length body (body ++ [10]).length
    (Nat.le_refl _) (Nat.le_refl _)
  exact ⟨cs, congrArg String.mk hcs⟩

end TextLemmas
/-! ## The poll cycle -/

section PollLemmas

open rules tailer

/-- What `reopenWatcher` does when the file opens: the new handle, positioned at
the size of the file, which is also the new offset. -/
theorem reopenWatcher_opened (fs : os.FileSys) (watcher : fileWatcher) (size : Nat)
    (hstat : os.Stat fs watcher.path = some size) (f : os.File)
    (hopen : os.Open fs watcher.path = some f) :
    reopenWatcher fs watcher size =
      { watcher with file := { f with offset := size }, lastPos := size } := by
  unfold os.Stat at hstat
  unfold os.Open at hopen
  unfold reopenWatcher os.Open
  cases hl : fs.lookup watcher.path with
  | none => simp [hl] at hstat
  | some i =>
    simp only [hl, Option.some.injEq] at hstat hopen
    by_cases hr : (fs.inode i).readable = true
    · simp only [hr, if_true, Option.some.injEq] at hopen
      subst hopen
      subst hstat
      by_cases hs : (fs.inode i).statFails = true
      · simp [hr, os.File.Stat, os.File.Seek, hs]
      · simp [hr, os.File.Stat, os.File.Seek, hs]
    · simp [hr] at hopen

/-- What `reopenWatcher` does when the file does not open: the old handle is
closed and the offset is kept. -/
theorem reopenWatcher_failed (fs : os.FileSys) (watcher : fileWatcher) (newSize : Nat)
    (hopen : os.Open fs watcher.path = none) :
    reopenWatcher fs watcher newSize = { watcher with file := watcher.file.Close } := by
  unfold reopenWatcher
  rw [hopen]

/-- The offset after `reopenWatcher`, whether or not the file opens. -/
theorem reopenWatcher_lastPos (fs : os.FileSys) (watcher : fileWatcher) (size : Nat)
    (hstat : os.Stat fs watcher.path = some size) :
    (reopenWatcher fs watcher size).lastPos =
      if (os.Open fs watcher.path).isSome then size else watcher.lastPos := by
  cases hopen : os.Open fs watcher.path with
  | none => rw [reopenWatcher_failed fs watcher size hopen]; rfl
  | some f => rw [reopenWatcher_opened fs watcher size hstat f hopen]; rfl

/-- A poll cycle when the file has not grown: nothing is read. -/
theorem readNewLines_not_grown {E : RegexEngine} (t : Tailer E) (fs : os.FileSys)
    (watcher : fileWatcher) (size : Nat) (hstat : os.Stat fs watcher.path = some size)
    (hle : size ≤ watcher.lastPos) :
    readNewLines t fs watcher =
      some (t, if size < watcher.lastPos then reopenWatcher fs watcher size else watcher) := by
  unfold readNewLines
  rw [hstat]
  have h1 : ¬ size > watcher.lastPos := by omega
  simp only [h1, if_false]
  by_cases h2 : size < watcher.lastPos
  · simp [h2]
  · simp [h2]

/-- A poll cycle when the file has grown and the read is not possible (closed
handle or I/O error): reopen, no alert. -/
theorem readNewLines_read_error {E : RegexEngine} (t : Tailer E) (fs : os.FileSys)
    (watcher : fileWatcher) (size : Nat) (hstat : os.Stat fs watcher.path = some size)
    (hgt : size > watcher.lastPos)
    (hbad : watcher.file.closed = true ∨ (fs.inode watcher.file.ino).faulty = true) :
    ∃ w0, w0.path = watcher.path ∧ w0.lastPos = watcher.lastPos ∧
      readNewLines t fs watcher = some (t, reopenWatcher fs w0 size) := by
  unfold readNewLines
  rw [hstat]
  simp only [hgt, if_true]
  by_cases hc : watcher.file.closed = true
  · exact ⟨watcher, rfl, rfl, by simp [os.File.Seek, hc]⟩
  · have hf : (fs.inode watcher.file.ino).faulty = true := by
      rcases hbad with h | h
      · exact absurd h hc
      · exact h
    refine ⟨{ watcher with file := { watcher.file with offset := watcher.lastPos } }, rfl, rfl, ?_⟩
    simp [os.File.Seek, hc, os.ReadFull, hf]

/-- The result of `io.ReadFull` on an open handle of a sound file: the bytes
available from the offset on, at most `n`, with no error, `EOF` or
`ErrUnexpectedEOF`. -/
theorem ReadFull_sound (fs : os.FileSys) (f : os.File) (n : Nat)
    (hopen : f.closed = false) (hok : (fs.inode f.ino).faulty = false) :
    ∃ err, err ≠ some os.ReadErr.other ∧
      (err = none ↔ (((fs.inode f.ino).data.drop f.offset).take n).length = n) ∧
      os.ReadFull fs f n =
        ({ f with offset := f.offset + (((fs.inode f.ino).data.drop f.offset).take n).length },
          ((fs.inode f.ino).data.drop f.offset).take n, err) := by
  unfold os.ReadFull
  simp only [hopen, hok, Bool.or_self, Bool.false_eq_true, if_false]
  generalize ((fs.inode f.ino).data.drop f.offset).take n = bytes
  by_cases h1 : bytes.length = n
  · exact ⟨none, by simp, iff_of_true rfl h1, by rw [if_pos h1]⟩
  · by_cases h2 : bytes.length = 0
    · exact ⟨some os.ReadErr.EOF, by simp, iff_of_false (by simp) h1,
        by rw [if_neg h1, if_pos h2]⟩
    · exact ⟨some os.ReadErr.ErrUnexpectedEOF, by simp, iff_of_false (by simp) h1,
        by rw [if_neg h1, if_neg h2]⟩

/-- A poll cycle when the file has grown and the read is possible: the bytes
available from the offset on, at most the expected count, are consumed and
their text is processed, however few they are. -/
theorem readNewLines_read {E : RegexEngine} (t : Tailer E) (config : Config E)
    (hconfig : t.ruleManager.config = some config) (fs : os.FileSys)
    (watcher : fileWatcher) (size : Nat) (hstat : os.Stat fs watcher.path = some size)
    (hgt : size > watcher.lastPos) (hopen : watcher.file.closed = false)
    (hok : (fs.inode watcher.file.ino).faulty = false) :
    readNewLines t fs watcher =
      some ({ t with
              alerts := List.foldl offer t.alerts
                (Spec.chunkAlerts t.ruleManager watcher.path
                  (strings.Text (((fs.inode watcher.file.ino).data.drop watcher.lastPos).take
                    (size - watcher.lastPos)))) },
            { watcher with
              file := { watcher.file with
                offset := watcher.lastPos +
                  (((fs.inode watcher.file.ino).data.drop watcher.lastPos).take
                    (size - watcher.lastPos)).length },
              lastPos := watcher.lastPos +
                (((fs.inode watcher.file.ino).data.drop watcher.lastPos).take
                  (size - watcher.lastPos)).length }) := by
  obtain ⟨err, herr, _, hrf⟩ := ReadFull_sound fs { watcher.file with offset := watcher.lastPos }
    (size - watcher.lastPos) hopen hok
  unfold readNewLines
  rw [hstat]
  simp only [hgt, if_true, os.File.Seek, hopen, Bool.false_eq_true, if_false]
  simp only [hopen] at hrf
  rw [hrf]
  have hpc := processChunk_loaded t config hconfig watcher.path
    (strings.Text (((fs.inode watcher.file.ino).data.drop watcher.lastPos).take
      (size - watcher.lastPos)))
  have hcond : ¬ (err ≠ none ∧ err ≠ some os.ReadErr.EOF ∧
      err ≠ some os.ReadErr.ErrUnexpectedEOF) := by
    rcases err with _ | e
    · simp
    · cases e <;> simp at herr ⊢
  simp only [hcond, if_false, hpc]

/-- The empty chunk calls for no alert. -/
theorem chunkAlerts_empty {E : RegexEngine} (m : Manager E) (path : String) :
    Spec.chunkAlerts m path (String.mk []) = [] := by
  simp [Spec.chunkAlerts, strings.SplitNewline, strings.splitChars, Spec.segmentAlert,
    strings.TrimSpace, strings.trimChars]

/-- No bytes, no text. -/
theorem Text_nil : strings.Text [] = String.mk [] := rfl

/-- A handle that `os.Open` returns is open, at offset 0, on the inode of the
path. -/
theorem Open_some (fs : os.FileSys) (path : String) (f : os.File)
    (h : os.Open fs path = some f) :
    fs.lookup path = some f.ino ∧ f.closed = false ∧ f.offset = 0 := by
  unfold os.Open at h
  split at h
  · exact absurd h (by simp)
  · rename_i i hl
    split at h
    · simp only [Option.some.injEq] at h
      subst h
      exact ⟨hl, rfl, rfl⟩
    · exact absurd h (by simp)

end PollLemmas

section PollClaims

open rules tailer

set_option maxRecDepth 8000

/-- C8, as stated, fails: the cycle sees a file of size 0 below the offset 500,
but the file cannot be reopened and the offset is not reset. -/
theorem C8_no_reset_when_reopen_fails :
    os.Stat (Demo.fsLocked (Demo.oldLines 50)) (Demo.watcherAt 500).path = some 0 ∧
    (readNewLines (Demo.tailerOf Demo.demoConfig) (Demo.fsLocked (Demo.oldLines 50))
        (Demo.watcherAt 500)).map (fun r => (r.2.lastPos, r.2.file.closed)) =
      some (500, true) := by
  refine ⟨by decide, by decide⟩

/-- C8, amended: a poll cycle completes; sizes and offsets are counts of bytes;
when the cycle detects truncation (current size below the offset) it emits no
alert and, if the file can be reopened, the offset is reset to the current
size, while it is left as it was if the file cannot be reopened; in every
other cycle the offset does not decrease; and the alerts of a cycle only come
from bytes at or after the offset. -/
theorem C8_offset_forward_or_reset {E : RegexEngine} (t : Tailer E) (config : Config E)
    (hconfig : t.ruleManager.config = some config) (fs : os.FileSys)
    (watcher : fileWatcher) :
    ∃ t1 w1, readNewLines t fs watcher = some (t1, w1) ∧
      (∀ size, os.Stat fs watcher.path = some size → size < watcher.lastPos →
        t1.alerts = t.alerts ∧
        ((os.Open fs watcher.path).isSome = true → w1.lastPos = size) ∧
        (os.Open fs watcher.path = none → w1.lastPos = watcher.lastPos)) ∧
      ((∀ size, os.Stat fs watcher.path = some size → watcher.lastPos ≤ size) →
        watcher.lastPos ≤ w1.lastPos) ∧
      (∃ k, t1.alerts = List.foldl offer t.alerts
        (Spec.chunkAlerts t.ruleManager watcher.path
          (strings.Text (((fs.inode watcher.file.ino).data.drop watcher.lastPos).take k)))) := by
  have hnone : t.alerts = List.foldl offer t.alerts
      (Spec.chunkAlerts t.ruleManager watcher.path
        (strings.Text (((fs.inode watcher.file.ino).data.drop watcher.lastPos).take 0))) := by
    rw [List.take_zero, Text_nil, chunkAlerts_empty]
    rfl
  cases hstat : os.Stat fs watcher.path with
  | none =>
    refine ⟨t, watcher, ?_, ?_, ?_, 0, hnone⟩
    · unfold readNewLines
      rw [hstat]
    · intro size h
      exact absurd h (by simp)
    · intro _
      exact Nat.le_refl _
  | some size =>
    rcases Nat.lt_trichotomy size watcher.lastPos with hlt | heq | hgt
    · refine ⟨t, reopenWatcher fs watcher size, ?_, ?_, ?_, 0, hnone⟩
      · rw [readNewLines_not_grown t fs watcher size hstat (by omega), if_pos hlt]
      · intro size1 h1 _
        simp only [Option.some.injEq] at h1
        subst h1
        have hl := reopenWatcher_lastPos fs watcher size hstat
        refine ⟨rfl, ?_, ?_⟩
        · intro ho
          rw [hl, if_pos ho]
        · intro ho
          rw [hl, ho]
          rfl
      · intro h
        have := h size rfl
        omega
    · refine ⟨t, watcher, ?_, ?_, ?_, 0, hnone⟩
      · rw [readNewLines_not_grown t fs watcher size hstat (by omega), if_neg (by omega)]
      · intro size1 h1 h2
        simp only [Option.some.injEq] at h1
        omega
      · intro _
        exact Nat.le_refl _
    · by_cases hbad : watcher.file.closed = true ∨ (fs.inode watcher.file.ino).faulty = true
      · obtain ⟨w0, hp, hl0, hr⟩ := readNewLines_read_error t fs watcher size hstat hgt hbad
        refine ⟨t, reopenWatcher fs w0 size, hr, ?_, ?_, 0, hnone⟩
        · intro size1 h1 h2
          simp only [Option.some.injEq] at h1
          omega
        · intro _
          have hl := reopenWatcher_lastPos fs w0 size (by rw [hp]; exact hstat)
          rw [hl, hl0]
          split <;> omega
      · simp only [not_or, Bool.not_eq_true] at hbad
        have hr := readNewLines_read t config hconfig fs watcher size hstat hgt hbad.1 hbad.2
        refine ⟨_, _, hr, ?_, ?_, size - watcher.lastPos, rfl⟩
        · intro size1 h1 h2
          simp only [Option.some.injEq] at h1
          omega
        · intro _
          exact Nat.le_add_right _ _

/-- C8 at a truncation that is detected and reopened: the offset 500 is reset
to the size 3 and no alert is emitted, though the three bytes left of the file
are the start of a matching line; and at a file of 18 bytes and 12 code points
read from the offset 13: the cycle reads, it does not take the file for
truncated. -/
theorem C8_offset_forward_or_reset_witness :
    (Demo.tailerOf Demo.demoConfig).ruleManager.config = some Demo.demoConfig ∧
    readNewLines (Demo.tailerOf Demo.demoConfig) (Demo.fsWith "ERR") (Demo.watcherAt 500) =
      some (Demo.tailerOf Demo.demoConfig,
        { Demo.watcherAt 500 with file := { ino := 0, closed := false, offset := 3 },
                                  lastPos := 3 }) ∧
    os.Stat (Demo.fsWith "éééééé\ndisk\n") "app.log" = some 18 ∧
    (readNewLines (Demo.tailerOf Demo.demoConfig) (Demo.fsWith "éééééé\ndisk\n")
        (Demo.watcherAt 13)).map (fun r => (r.1.alerts.map (fun a => a.Line), r.2.lastPos)) =
      some (["disk"], 18) ∧
    ∃ t1 w1, readNewLines (Demo.tailerOf Demo.demoConfig) (Demo.fsWith "ERR")
        (Demo.watcherAt 500) = some (t1, w1) ∧
      (∀ size, os.Stat (Demo.fsWith "ERR") (Demo.watcherAt 500).path = some size →
        size < (Demo.watcherAt 500).lastPos →
        t1.alerts = (Demo.tailerOf Demo.demoConfig).alerts ∧
        ((os.Open (Demo.fsWith "ERR") (Demo.watcherAt 500).path).isSome = true →
          w1.lastPos = size) ∧
        (os.Open (Demo.fsWith "ERR") (Demo.watcherAt 500).path = none →
          w1.lastPos = (Demo.watcherAt 500).lastPos)) :=
  ⟨rfl, by rfl, by decide, by decide,
    (C8_offset_forward_or_reset (Demo.tailerOf Demo.demoConfig) Demo.demoConfig rfl
      (Demo.fsWith "ERR") (Demo.watcherAt 500)).imp
      (fun _ h => h.imp (fun _ h1 => ⟨h1.1, h1.2.1⟩))⟩

end PollClaims

section ShortReadClaims

open rules tailer

set_option maxRecDepth 8000

/-- C9, as stated, fails: after a rotation the path holds 38 bytes, the old
handle yields only 11 of the 28 bytes expected; the cycle does not reopen the
file, moves the offset from 10 to 21 and not to 38, and emits an alert from the
bytes it read. -/
theorem C9_short_read_is_processed :
    os.Stat (Demo.fsRotated "ERROR old\nERROR late\n" "fresh log line one\nfresh log line two\n")
      (Demo.watcherAt 10).path = some 38 ∧
    (os.ReadFull (Demo.fsRotated "ERROR old\nERROR late\n"
        "fresh log line one\nfresh log line two\n") (Demo.watcherAt 10).file 28).2 =
      (strings.Bytes "ERROR late\n", some os.ReadErr.ErrUnexpectedEOF) ∧
    (readNewLines (Demo.tailerOf Demo.demoConfig)
        (Demo.fsRotated "ERROR old\nERROR late\n" "fresh log line one\nfresh log line two\n")
        (Demo.watcherAt 10)).map (fun r => (r.1.alerts, r.2)) =
      some ([{ Source := "app.log", LogFile := "app.log", Line := "ERROR late",
               MatchedRules := ["errors"], Severity := "medium" }],
            { Demo.watcherAt 10 with file := { ino := 0, closed := false, offset := 21 },
                                     lastPos := 21 }) := by
  refine ⟨by decide, by decide, by decide⟩

/-- C9, amended: in a cycle where the file has grown and the handle is open, a
short read (fewer bytes than the expected delta, reported by `io.ReadFull` as
`EOF` or `ErrUnexpectedEOF`) is not handled like truncation: the file is not
reopened, the offset advances by the bytes read and these bytes are processed
for alerts like any chunk; only a read that fails with another error makes the
cycle reopen the file and resync the offset to the current size, with no
alert; neither surfaces an error. Sizes, read lengths and offsets are counts
of bytes. -/
theorem C9_short_read_advances {E : RegexEngine} (t : Tailer E) (config : Config E)
    (hconfig : t.ruleManager.config = some config) (fs : os.FileSys)
    (watcher : fileWatcher) (size : Nat) (hstat : os.Stat fs watcher.path = some size)
    (hgt : size > watcher.lastPos) (hopen : watcher.file.closed = false) :
    ((fs.inode watcher.file.ino).faulty = false →
      (((fs.inode watcher.file.ino).data.drop watcher.lastPos).take
        (size - watcher.lastPos)).length < size - watcher.lastPos →
      (∃ f buf err, os.ReadFull fs { watcher.file with offset := watcher.lastPos }
          (size - watcher.lastPos) = (f, buf, err) ∧ buf.length < size - watcher.lastPos ∧
          (err = some os.ReadErr.EOF ∨ err = some os.ReadErr.ErrUnexpectedEOF)) ∧
      ∃ t1 w1, readNewLines t fs watcher = some (t1, w1) ∧
        w1.file.ino = watcher.file.ino ∧ w1.file.closed = false ∧
        w1.lastPos = watcher.lastPos +
          (((fs.inode watcher.file.ino).data.drop watcher.lastPos).take
            (size - watcher.lastPos)).length ∧
        w1.lastPos < size ∧
        t1.alerts = List.foldl offer t.alerts
          (Spec.chunkAlerts t.ruleManager watcher.path
            (strings.Text (((fs.inode watcher.file.ino).data.drop watcher.lastPos).take
              (size - watcher.lastPos))))) ∧
    ((fs.inode watcher.file.ino).faulty = true →
      ∃ w1, readNewLines t fs watcher = some (t, w1) ∧
        ((os.Open fs watcher.path).isSome = true → w1.lastPos = size ∧ w1.file.closed = false) ∧
        (os.Open fs watcher.path = none →
          w1.lastPos = watcher.lastPos ∧ w1.file.closed = true)) := by
  constructor
  · intro hok hshort
    constructor
    · obtain ⟨err, herr, hnone, hrf⟩ := ReadFull_sound fs
        { watcher.file with offset := watcher.lastPos } (size - watcher.lastPos) hopen hok
      refine ⟨_, _, err, hrf, hshort, ?_⟩
      have hne : err ≠ none := by
        intro h
        have := hnone.mp h
        simp only at this
        omega
      rcases err with _ | e
      · exact absurd rfl hne
      · cases e
        · exact Or.inl rfl
        · exact Or.inr rfl
        · exact absurd rfl herr
    · have hr := readNewLines_read t config hconfig fs watcher size hstat hgt hopen hok
      refine ⟨_, _, hr, rfl, hopen, rfl, ?_, rfl⟩
      simp only
      omega
  · intro hf
    obtain ⟨w0, hp, hl0, hr⟩ :=
      readNewLines_read_error t fs watcher size hstat hgt (Or.inr hf)
    refine ⟨reopenWatcher fs w0 size, hr, ?_, ?_⟩
    · intro ho
      obtain ⟨f, hf1⟩ := Option.isSome_iff_exists.mp (by rw [← hp] at ho; exact ho)
      rw [reopenWatcher_opened fs w0 size (by rw [hp]; exact hstat) f hf1]
      refine ⟨rfl, ?_⟩
      unfold os.Open at hf1
      split at hf1
      · exact absurd hf1 (by simp)
      · split at hf1
        · simp only [Option.some.injEq] at hf1
          subst hf1
          rfl
        · exact absurd hf1 (by simp)
    · intro ho
      rw [reopenWatcher_failed fs w0 size (by rw [hp]; exact ho)]
      exact ⟨hl0, rfl⟩

/-- C9 at the rotation of the counterexample. -/
theorem C9_short_read_advances_witness :
    (Demo.tailerOf Demo.demoConfig).ruleManager.config = some Demo.demoConfig ∧
    os.Stat (Demo.fsRotated "ERROR old\nERROR late\n" "fresh log line one\nfresh log line two\n")
      (Demo.watcherAt 10).path = some 38 ∧
    38 > (Demo.watcherAt 10).lastPos ∧
    (Demo.watcherAt 10).file.closed = false ∧
    ∃ t1 w1, readNewLines (Demo.tailerOf Demo.demoConfig)
        (Demo.fsRotated "ERROR old\nERROR late\n" "fresh log line one\nfresh log line two\n")
        (Demo.watcherAt 10) = some (t1, w1) ∧
      w1.file.ino = 0 ∧ w1.file.closed = false ∧ w1.lastPos = 21 :=
  ⟨rfl, by decide, by decide, rfl,
    (((C9_short_read_advances (Demo.tailerOf Demo.demoConfig) Demo.demoConfig rfl
      (Demo.fsRotated "ERROR old\nERROR late\n" "fresh log line one\nfresh log line two\n")
      (Demo.watcherAt 10) 38 (by decide) (by decide) rfl).1 rfl (by decide)).2).imp
      (fun _ h => h.imp (fun _ h1 => ⟨h1.1, h1.2.1, h1.2.2.1, h1.2.2.2.1.trans (by decide)⟩))⟩

end ShortReadClaims

section TruncationClaims

open rules tailer

set_option maxRecDepth 8000

/-- C10, as stated, fails: when the file of 500 bytes is truncated and receives
the line before the next poll, the cycle sees the size 12 below the offset 500,
resyncs the offset to 12, and neither it nor the following cycles emit an
alert for `ERROR retry`. -/
theorem C10_append_before_detection_is_skipped :
    os.Stat (Demo.fsWith (Demo.oldLines 50)) (Demo.watcherAt 500).path = some 500 ∧
    (MatchRules (Demo.tailerOf Demo.demoConfig).ruleManager "ERROR retry").map
      (fun rs => rs.map (fun r => r.Name)) = some ["errors"] ∧
    (pollCycles (Demo.tailerOf Demo.demoConfig) (Demo.watcherAt 500)
        [Demo.fsWith "ERROR retry\n", Demo.fsWith "ERROR retry\n",
         Demo.fsWith "ERROR retry\n"]).map (fun r => (r.1.alerts, r.2.lastPos)) =
      some ([], 12) := by
  refine ⟨by decide, by decide, by decide⟩

/-- A poll cycle on a file whose size is the offset changes nothing. -/
theorem readNewLines_same_size {E : RegexEngine} (t : Tailer E) (fs : os.FileSys)
    (watcher : fileWatcher) (hstat : os.Stat fs watcher.path = some watcher.lastPos) :
    readNewLines t fs watcher = some (t, watcher) := by
  rw [readNewLines_not_grown t fs watcher _ hstat (Nat.le_refl _), if_neg (Nat.lt_irrefl _)]

/-- C10, amended: truncating a watched file to a size below the offset and then
appending bytes yields alerts only for the appended bytes, and not always for
all of them. When a poll cycle sees the truncated file (and reopens it) before
the append, the cycles emit exactly the alerts of the appended bytes. When the
append lands before the truncation is detected and the size is still below the
offset, the resync skips the appended bytes: no alert. When by then the size
has reached the offset, the truncation is not detected and the cycle processes
the appended bytes from the old offset on, which may start inside a line. Sizes
and offsets are counts of bytes. -/
theorem C10_truncate_then_append {E : RegexEngine} (t : Tailer E) (config : Config E)
    (hconfig : t.ruleManager.config = some config) (watcher : fileWatcher)
    (fsT fsA : os.FileSys) (f : os.File) (appended : List Nat)
    (hopenT : os.Open fsT watcher.path = some f)
    (hshrunk : (fsT.inode f.ino).data.length < watcher.lastPos)
    (hsame : fsA.lookup watcher.path = some f.ino)
    (hdata : (fsA.inode f.ino).data = (fsT.inode f.ino).data ++ appended)
    (hreadable : (fsA.inode f.ino).readable = true)
    (hsound : (fsA.inode f.ino).faulty = false) :
    (∃ w2, pollCycles t watcher [fsT, fsA] =
        some ({ t with
                alerts := List.foldl offer t.alerts
                  (Spec.chunkAlerts t.ruleManager watcher.path (strings.Text appended)) },
              w2) ∧
      w2.lastPos = (fsT.inode f.ino).data.length + appended.length ∧
      pollCycles t watcher [fsT, fsA, fsA] = pollCycles t watcher [fsT, fsA]) ∧
    ((fsT.inode f.ino).data.length + appended.length < watcher.lastPos →
      ∃ w2, pollCycles t watcher [fsA, fsA] = some (t, w2) ∧
        w2.lastPos = (fsT.inode f.ino).data.length + appended.length) ∧
    (watcher.lastPos ≤ (fsT.inode f.ino).data.length + appended.length →
      watcher.file.ino = f.ino → watcher.file.closed = false →
      ∃ w2, pollCycles t watcher [fsA, fsA] =
          some ({ t with
                  alerts := List.foldl offer t.alerts
                    (Spec.chunkAlerts t.ruleManager watcher.path
                      (strings.Text
                        (appended.drop (watcher.lastPos - (fsT.inode f.ino).data.length)))) },
                w2) ∧
        w2.lastPos = (fsT.inode f.ino).data.length + appended.length) := by
  obtain ⟨hlook, hclosed, hoff⟩ := Open_some fsT watcher.path f hopenT
  have hstatT : os.Stat fsT watcher.path = some (fsT.inode f.ino).data.length := by
    simp [os.Stat, hlook]
  have hlenA : (fsA.inode f.ino).data.length =
      (fsT.inode f.ino).data.length + appended.length := by
    rw [hdata, List.length_append]
  have hstatA : os.Stat fsA watcher.path =
      some ((fsT.inode f.ino).data.length + appended.length) := by
    simp [os.Stat, hsame, hlenA]
  have hopenA : os.Open fsA watcher.path = some { ino := f.ino, closed := false, offset := 0 } := by
    simp [os.Open, hsame, hreadable]
  have hstay : ∀ (t0 : Tailer E) (w0 : fileWatcher), w0.path = watcher.path →
      w0.lastPos = (fsT.inode f.ino).data.length + appended.length →
      readNewLines t0 fsA w0 = some (t0, w0) := by
    intro t0 w0 hp hl
    exact readNewLines_same_size t0 fsA w0 (by rw [hp, hl]; exact hstatA)
  refine ⟨?_, ?_, ?_⟩
  · -- the truncation is detected first
    have h1 : readNewLines t fsT watcher =
        some (t, { watcher with file := { f with offset := (fsT.inode f.ino).data.length },
                                lastPos := (fsT.inode f.ino).data.length }) := by
      rw [readNewLines_not_grown t fsT watcher _ hstatT (by omega), if_pos hshrunk,
        reopenWatcher_opened fsT watcher _ hstatT f hopenT]
    by_cases hnew : appended = []
    · subst hnew
      have h2 := fun t0 : Tailer E => hstay t0
        { watcher with file := { f with offset := (fsT.inode f.ino).data.length },
                       lastPos := (fsT.inode f.ino).data.length } rfl (by simp)
      refine ⟨{ watcher with
              file := { f with offset := (fsT.inode f.ino).data.length },
              lastPos := (fsT.inode f.ino).data.length }, ?_, ?_, ?_⟩
      · simp only [pollCycles, h1, h2]
        rw [Text_nil, chunkAlerts_empty]
        rfl
      · simp
      · simp only [pollCycles, h1, h2]
    · have hpos : appended.length > 0 := List.length_pos.mpr hnew
      have hchunk : (((fsA.inode f.ino).data.drop (fsT.inode f.ino).data.length).take
          ((fsT.inode f.ino).data.length + appended.length -
            (fsT.inode f.ino).data.length)) = appended := by
        rw [hdata, Nat.add_sub_cancel_left, List.drop_left, List.take_length]
      have h2 := readNewLines_read t config hconfig fsA
        { watcher with file := { f with offset := (fsT.inode f.ino).data.length },
                       lastPos := (fsT.inode f.ino).data.length }
        ((fsT.inode f.ino).data.length + appended.length) hstatA (by simp only; omega)
        hclosed hsound
      simp only [hchunk] at h2
      have h4 := fun t0 : Tailer E => hstay t0 { watcher with
            file := { f with offset := (fsT.inode f.ino).data.length + appended.length },
            lastPos := (fsT.inode f.ino).data.length + appended.length } rfl rfl
      refine ⟨{ watcher with
              file := { f with offset := (fsT.inode f.ino).data.length + appended.length },
              lastPos := (fsT.inode f.ino).data.length + appended.length }, ?_, rfl, ?_⟩
      · simp only [pollCycles, h1, h2]
      · simp only [pollCycles, h1, h2, h4]
  · -- the append lands before the truncation is detected, the size is still below the offset
    intro hbelow
    have h1 : readNewLines t fsA watcher =
        some (t, { watcher with
          file := { ino := f.ino, closed := false,
                    offset := (fsT.inode f.ino).data.length + appended.length },
          lastPos := (fsT.inode f.ino).data.length + appended.length }) := by
      rw [readNewLines_not_grown t fsA watcher _ hstatA (by omega), if_pos hbelow,
        reopenWatcher_opened fsA watcher _ hstatA _ hopenA]
    have h3 := fun t0 : Tailer E => hstay t0 { watcher with
          file := { ino := f.ino, closed := false,
                    offset := (fsT.inode f.ino).data.length + appended.length },
          lastPos := (fsT.inode f.ino).data.length + appended.length } rfl rfl
    refine ⟨{ watcher with
          file := { ino := f.ino, closed := false,
                    offset := (fsT.inode f.ino).data.length + appended.length },
          lastPos := (fsT.inode f.ino).data.length + appended.length }, ?_, rfl⟩
    simp only [pollCycles, h1, h3]
  · -- the append lands before the truncation is detected, the size has reached the offset
    intro hreach hino hopenW
    have hdrop : (fsA.inode f.ino).data.drop watcher.lastPos =
        appended.drop (watcher.lastPos - (fsT.inode f.ino).data.length) := by
      rw [hdata, List.drop_append_eq_append_drop,
        List.drop_eq_nil_of_le (Nat.le_of_lt hshrunk), List.nil_append]
    rcases Nat.eq_or_lt_of_le hreach with heq | hlt
    · -- the size is the offset: nothing is read
      have hnil : appended.drop (watcher.lastPos - (fsT.inode f.ino).data.length) = [] := by
        apply List.drop_eq_nil_of_le
        omega
      have h1 := hstay t watcher rfl heq
      refine ⟨watcher, ?_, heq⟩
      simp only [pollCycles, h1]
      rw [hnil, Text_nil, chunkAlerts_empty]
      rfl
    · -- the size is above the offset: the bytes after the offset are read
      have hsoundW : (fsA.inode watcher.file.ino).faulty = false := by
        rw [hino]; exact hsound
      have h1 := readNewLines_read t config hconfig fsA watcher
        ((fsT.inode f.ino).data.length + appended.length) hstatA hlt hopenW hsoundW
      have hchunk : ((fsA.inode watcher.file.ino).data.drop watcher.lastPos).take
          ((fsT.inode f.ino).data.length + appended.length - watcher.lastPos) =
          appended.drop (watcher.lastPos - (fsT.inode f.ino).data.length) := by
        rw [hino, hdrop]
        apply List.take_of_length_le
        rw [List.length_drop]
        omega
      have hlen : (appended.drop (watcher.lastPos - (fsT.inode f.ino).data.length)).length =
          (fsT.inode f.ino).data.length + appended.length - watcher.lastPos := by
        rw [List.length_drop]
        omega
      rw [hchunk] at h1
      have h2 := fun t0 : Tailer E => hstay t0 { watcher with
            file := { watcher.file with
              offset := watcher.lastPos +
                (appended.drop (watcher.lastPos - (fsT.inode f.ino).data.length)).length },
            lastPos := watcher.lastPos +
              (appended.drop (watcher.lastPos - (fsT.inode f.ino).data.length)).length }
          rfl (by simp only; rw [hlen]; omega)
      refine ⟨{ watcher with
            file := { watcher.file with
              offset := watcher.lastPos +
                (appended.drop (watcher.lastPos - (fsT.inode f.ino).data.length)).length },
            lastPos := watcher.lastPos +
              (appended.drop (watcher.lastPos - (fsT.inode f.ino).data.length)).length },
        ?_, ?_⟩
      · simp only [pollCycles, h1, h2]
      · simp only
        rw [hlen]
        omega

/-- C10 at the scenario of the specification, with a poll between the
truncation and the append: a watcher at offset 500 on a file of 500 bytes; the
file is truncated to 0 bytes, then receives `ERROR retry`; the cycles emit
exactly one alert, for `ERROR retry`. And at a file truncated and rewritten to
19 bytes before the poll of a watcher at offset 3: the alert is for the
fragment after the offset. -/
theorem C10_truncate_then_append_witness :
    (Demo.tailerOf Demo.demoConfig).ruleManager.config = some Demo.demoConfig ∧
    os.Open (Demo.fsWith "") (Demo.watcherAt 500).path =
      some { ino := 0, closed := false, offset := 0 } ∧
    ((Demo.fsWith "").inode 0).data.length < (Demo.watcherAt 500).lastPos ∧
    (pollCycles (Demo.tailerOf Demo.demoConfig) (Demo.watcherAt 500)
        [Demo.fsWith (Demo.oldLines 50), Demo.fsWith "", Demo.fsWith "ERROR retry\n",
         Demo.fsWith "ERROR retry\n"]).map (fun r => (r.1.alerts, r.2.lastPos)) =
      some ([{ Source := "app.log", LogFile := "app.log", Line := "ERROR retry",
               MatchedRules := ["errors"], Severity := "medium" }], 12) ∧
    (pollCycles (Demo.tailerOf Demo.demoConfig) (Demo.watcherAt 3)
        [Demo.fsWith "ERROR disk failure\n", Demo.fsWith "ERROR disk failure\n"]).map
        (fun r => (r.1.alerts.map (fun a => a.Line), r.2.lastPos)) =
      some (["OR disk failure"], 19) ∧
    ∃ w2, pollCycles (Demo.tailerOf Demo.demoConfig) (Demo.watcherAt 500)
        [Demo.fsWith "", Demo.fsWith "ERROR retry\n"] =
      some ({ Demo.tailerOf Demo.demoConfig with
              alerts := List.foldl offer (Demo.tailerOf Demo.demoConfig).alerts
                (Spec.chunkAlerts (Demo.tailerOf Demo.demoConfig).ruleManager
                  (Demo.watcherAt 500).path (strings.Text (strings.Bytes "ERROR retry\n"))) },
            w2) ∧
      w2.lastPos = ((Demo.fsWith "").inode 0).data.length +
        (strings.Bytes "ERROR retry\n").length :=
  ⟨rfl, by decide, by decide, by decide, by decide,
    (C10_truncate_then_append (Demo.tailerOf Demo.demoConfig) Demo.demoConfig rfl
      (Demo.watcherAt 500) (Demo.fsWith "") (Demo.fsWith "ERROR retry\n")
      { ino := 0, closed := false, offset := 0 } (strings.Bytes "ERROR retry\n") (by decide)
      (by decide) (by decide) (by decide) (by decide) (by decide)).1.imp
      (fun _ h => ⟨h.1, h.2.1⟩)⟩

end TruncationClaims

/-! ## The watcher registry -/

section RegistryLemmas

open rules tailer

/-- The builtin `delete(watchers, key)` on a registry with a first entry. -/
theorem mapDelete_cons (k : String) (w : fileWatcher) (rest : List (String × fileWatcher))
    (key : String) :
    mapDelete ((k, w) :: rest) key =
      if k = key then mapDelete rest key else (k, w) :: mapDelete rest key := by
  by_cases hk : k = key
  · simp [mapDelete, List.filter_cons, hk]
  · simp [mapDelete, List.filter_cons, hk]

/-- After `delete(watchers, key)` the key is absent. -/
theorem mapIndex_mapDelete_self (watchers : List (String × fileWatcher)) (key : String) :
    mapIndex (mapDelete watchers key) key = none := by
  induction watchers with
  | nil => rfl
  | cons e rest ih =>
    obtain ⟨k, w⟩ := e
    rw [mapDelete_cons]
    by_cases hk : k = key
    · rw [if_pos hk]
      exact ih
    · rw [if_neg hk, mapIndex, if_neg hk]
      exact ih

/-- The builtin `delete(watchers, key)` leaves the other keys as they are. -/
theorem mapIndex_mapDelete_other (watchers : List (String × fileWatcher)) (key q : String)
    (hq : q ≠ key) : mapIndex (mapDelete watchers key) q = mapIndex watchers q := by
  induction watchers with
  | nil => rfl
  | cons e rest ih =>
    obtain ⟨k, w⟩ := e
    rw [mapDelete_cons]
    by_cases hk : k = key
    · have hkq : ¬ k = q := by
        intro h
        exact hq (h.symm.trans hk)
      rw [if_pos hk, ih, mapIndex, if_neg hkq]
    · rw [if_neg hk]
      by_cases hkq : k = q
      · rw [mapIndex, if_pos hkq, mapIndex, if_pos hkq]
      · rw [mapIndex, if_neg hkq, ih, mapIndex, if_neg hkq]

/-- Deleting a key that is absent changes nothing. -/
theorem mapDelete_absent (watchers : List (String × fileWatcher)) (key : String)
    (h : mapIndex watchers key = none) : mapDelete watchers key = watchers := by
  induction watchers with
  | nil => rfl
  | cons e rest ih =>
    obtain ⟨k, w⟩ := e
    rw [mapDelete_cons]
    by_cases hk : k = key
    · rw [mapIndex, if_pos hk] at h
      exact absurd h (by simp)
    · rw [mapIndex, if_neg hk] at h
      rw [if_neg hk, ih h]

/-- Looking a key up in a registry extended at the end. -/
theorem mapIndex_append (watchers : List (String × fileWatcher)) (key q : String)
    (w : fileWatcher) :
    mapIndex (watchers ++ [(key, w)]) q =
      match mapIndex watchers q with
      | some x => some x
      | none => if key = q then some w else none := by
  induction watchers with
  | nil => simp [mapIndex]
  | cons e rest ih =>
    obtain ⟨k, x⟩ := e
    by_cases hk : k = q
    · simp [mapIndex, hk]
    · simpa [mapIndex, hk] using ih

/-- After `watchers[key] = watcher` the key holds the watcher. -/
theorem mapIndex_mapAssign_self (watchers : List (String × fileWatcher)) (key : String)
    (w : fileWatcher) : mapIndex (mapAssign watchers key w) key = some w := by
  simp [mapAssign, mapIndex_append, mapIndex_mapDelete_self]

/-- The assignment `watchers[key] = watcher` leaves the other keys as they
are. -/
theorem mapIndex_mapAssign_other (watchers : List (String × fileWatcher)) (key q : String)
    (w : fileWatcher) (hq : q ≠ key) :
    mapIndex (mapAssign watchers key w) q = mapIndex watchers q := by
  have hkq : ¬ key = q := fun h => hq h.symm
  rw [mapAssign, mapIndex_append, mapIndex_mapDelete_other watchers key q hq]
  cases mapIndex watchers q <;> simp [hkq]

end RegistryLemmas

section RegistryClaims

open rules tailer

/-- C12: `StopWatching(path)` on a tracked path (whose stop signal is not yet
raised, as for every watcher registered by `StartWatching`) raises the stop
signal of that watcher, once, and removes the path from the registry, every
other path keeping its watcher; on a path not tracked it changes nothing; a
second call in a row changes nothing more and signals nothing; afterwards
`IsWatching(path)` is false. -/
theorem C12_stop_watching {E : RegexEngine} (t : Tailer E) (path : String)
    (hstop : ∀ w, mapIndex t.watchers path = some w → w.stop = false) :
    ∃ t1 stopped, StopWatching t path = some (t1, stopped) ∧
      (∀ w, mapIndex t.watchers path = some w →
        stopped = some { w with stop := true } ∧ t1.watchers = mapDelete t.watchers path) ∧
      (mapIndex t.watchers path = none → t1 = t ∧ stopped = none) ∧
      IsWatching t1 path = false ∧
      (∀ q, q ≠ path → mapIndex t1.watchers q = mapIndex t.watchers q) ∧
      StopWatching t1 path = some (t1, none) ∧
      t1.alerts = t.alerts ∧ t1.wg = t.wg ∧ t1.stopChan = t.stopChan := by
  cases hw : mapIndex t.watchers path with
  | none =>
    refine ⟨t, none, ?_, ?_, ?_, ?_, ?_, ?_, rfl, rfl, rfl⟩
    · simp [StopWatching, hw]
    · intro w h
      exact absurd h (by simp)
    · intro _
      exact ⟨rfl, rfl⟩
    · simp [IsWatching, hw]
    · intro q _
      rfl
    · simp [StopWatching, hw]
  | some w =>
    have hs := hstop w hw
    refine ⟨{ t with watchers := mapDelete t.watchers path }, some { w with stop := true },
      ?_, ?_, ?_, ?_, ?_, ?_, rfl, rfl, rfl⟩
    · simp [StopWatching, hw, hs]
    · intro w1 h
      simp only [Option.some.injEq] at h
      subst h
      exact ⟨rfl, rfl⟩
    · intro h
      exact absurd h (by simp)
    · simp [IsWatching, mapIndex_mapDelete_self]
    · intro q hq
      exact mapIndex_mapDelete_other _ _ _ hq
    · simp [StopWatching, mapIndex_mapDelete_self]

/-- C12 at a tailer that watches `app.log` and `sys.log`: stopping `app.log`
signals its watcher and leaves `sys.log` tracked. -/
theorem C12_stop_watching_witness :
    (∀ w, mapIndex (StartWatching Demo.watchingApp Demo.fsTwo Demo.demoHost
        "sys.log").2.1.watchers "app.log" = some w → w.stop = false) ∧
    (StopWatching (StartWatching Demo.watchingApp Demo.fsTwo Demo.demoHost "sys.log").2.1
        "app.log").map (fun r => (r.1.watchers.map (fun e => e.1), r.2)) =
      some (["sys.log"], some { Demo.watcherAt 500 with stop := true }) ∧
    ∃ t1 stopped,
      StopWatching (StartWatching Demo.watchingApp Demo.fsTwo Demo.demoHost "sys.log").2.1
        "app.log" = some (t1, stopped) ∧
      IsWatching t1 "app.log" = false ∧
      StopWatching t1 "app.log" = some (t1, none) :=
  ⟨by decide, by decide,
    (C12_stop_watching (StartWatching Demo.watchingApp Demo.fsTwo Demo.demoHost "sys.log").2.1
      "app.log" (by decide)).imp
      (fun _ h => h.imp (fun _ h1 => ⟨h1.1, h1.2.2.2.1, h1.2.2.2.2.2.1⟩))⟩

end RegistryClaims

/-! ## The alert queue -/

section QueueLemmas

open rules tailer

/-- Offering alerts to a queue within capacity keeps it within capacity and
keeps what it held, at the front. -/
theorem foldl_offer_bound :
    ∀ (as : List Alert) (q : List Alert), q.length ≤ 100 →
      (as.foldl offer q).length ≤ 100 ∧ (∃ added, as.foldl offer q = q ++ added) ∧
      (q.length = 100 → as.foldl offer q = q) := by
  intro as
  induction as with
  | nil =>
    intro q h
    exact ⟨h, ⟨[], by simp⟩, fun _ => rfl⟩
  | cons a rest ih =>
    intro q h
    rw [List.foldl_cons]
    by_cases hlt : q.length < 100
    · have ho : offer q a = q ++ [a] := by simp [offer, hlt]
      rw [ho]
      obtain ⟨h1, ⟨added, h2⟩, _⟩ := ih (q ++ [a]) (by simp; omega)
      refine ⟨h1, ⟨a :: added, ?_⟩, ?_⟩
      · rw [h2]; simp
      · intro hfull
        omega
    · have ho : offer q a = q := by simp [offer, hlt]
      rw [ho]
      exact ih q h

/-- The alerts after a poll cycle are the alerts before it with the alerts of
some chunk offered one by one. -/
theorem readNewLines_alerts {E : RegexEngine} (t : Tailer E) (config : Config E)
    (hconfig : t.ruleManager.config = some config) (fs : os.FileSys)
    (watcher : fileWatcher) :
    ∃ t1 w1 chunk, readNewLines t fs watcher = some (t1, w1) ∧
      t1.alerts = (Spec.chunkAlerts t.ruleManager watcher.path chunk).foldl offer t.alerts := by
  have hnone : t.alerts =
      (Spec.chunkAlerts t.ruleManager watcher.path (String.mk [])).foldl offer t.alerts := by
    rw [chunkAlerts_empty]
    rfl
  cases hstat : os.Stat fs watcher.path with
  | none =>
    refine ⟨t, watcher, String.mk [], ?_, hnone⟩
    unfold readNewLines
    rw [hstat]
  | some size =>
    by_cases hle : size ≤ watcher.lastPos
    · exact ⟨t, _, String.mk [], readNewLines_not_grown t fs watcher size hstat hle, hnone⟩
    · have hgt : size > watcher.lastPos := by omega
      by_cases hbad : watcher.file.closed = true ∨ (fs.inode watcher.file.ino).faulty = true
      · obtain ⟨w0, _, _, hr⟩ := readNewLines_read_error t fs watcher size hstat hgt hbad
        exact ⟨t, _, String.mk [], hr, hnone⟩
      · simp only [not_or, Bool.not_eq_true] at hbad
        exact ⟨_, _, _,
          readNewLines_read t config hconfig fs watcher size hstat hgt hbad.1 hbad.2, rfl⟩

end QueueLemmas

section QueueClaims

open rules tailer

set_option maxRecDepth 8000

/-- C13: the alert queue starts empty and never holds more than 100 alerts;
offering an alert to a queue of fewer than 100 appends it at the tail; offering
an alert to a queue of 100 leaves the queue as it is; the chunk loop and the
poll cycle always complete (no blocking, no error), keep the queue within 100
and keep the alerts it held, oldest first; on a full queue they leave it as it
is. -/
theorem C13_queue_bounded_drop_newest {E : RegexEngine} (t : Tailer E) (config : Config E)
    (hconfig : t.ruleManager.config = some config) (hbound : t.alerts.length ≤ 100)
    (alert : Alert) (path chunk : String) (fs : os.FileSys) (watcher : fileWatcher) :
    (NewTailer t.ruleManager).alerts = [] ∧
    (offer t.alerts alert).length ≤ 100 ∧
    (t.alerts.length < 100 → offer t.alerts alert = t.alerts ++ [alert]) ∧
    (t.alerts.length = 100 → offer t.alerts alert = t.alerts) ∧
    (∃ t1, processChunk t path chunk = some t1 ∧ t1.alerts.length ≤ 100 ∧
      (∃ added, t1.alerts = t.alerts ++ added) ∧
      (t.alerts.length = 100 → t1.alerts = t.alerts)) ∧
    (∃ t1 w1, readNewLines t fs watcher = some (t1, w1) ∧ t1.alerts.length ≤ 100 ∧
      (∃ added, t1.alerts = t.alerts ++ added) ∧
      (t.alerts.length = 100 → t1.alerts = t.alerts)) := by
  refine ⟨rfl, ?_, ?_, ?_, ?_, ?_⟩
  · unfold offer
    split
    · simp; omega
    · exact hbound
  · intro h
    simp [offer, h]
  · intro h
    simp [offer, h]
  · obtain ⟨h1, h2, h3⟩ :=
      foldl_offer_bound (Spec.chunkAlerts t.ruleManager path chunk) t.alerts hbound
    exact ⟨_, processChunk_loaded t config hconfig path chunk, h1, h2, h3⟩
  · obtain ⟨t1, w1, c, hr, ha⟩ := readNewLines_alerts t config hconfig fs watcher
    obtain ⟨h1, h2, h3⟩ :=
      foldl_offer_bound (Spec.chunkAlerts t.ruleManager watcher.path c) t.alerts hbound
    rw [← ha] at h1 h2 h3
    exact ⟨t1, w1, hr, h1, h2, h3⟩

/-- C13 at a queue of 100 different alerts: one more matching line leaves
exactly these 100 alerts, in their order, and the oldest is the next one
received. -/
theorem C13_queue_bounded_drop_newest_witness :
    Demo.fullTailer.ruleManager.config = some Demo.demoConfig ∧
    Demo.fullTailer.alerts.length = 100 ∧
    (Spec.chunkAlerts Demo.fullTailer.ruleManager "app.log" "ERROR disk failure\n").length = 1 ∧
    (∃ t1, processChunk Demo.fullTailer "app.log" "ERROR disk failure\n" = some t1 ∧
      t1.alerts = Demo.queueOf 100 ∧
      (receive t1.alerts).map (fun r => r.1.Line) = some "") :=
  ⟨rfl, by decide, by decide,
    (C13_queue_bounded_drop_newest Demo.fullTailer Demo.demoConfig rfl (by decide)
      { Source := "", LogFile := "", Line := "", MatchedRules := [], Severity := "" }
      "app.log" "ERROR disk failure\n" (Demo.fsWith "") (Demo.watcherAt 0)).2.2.2.2.1.imp
      (fun _ h => ⟨h.1, h.2.2.2 (by decide), by rw [h.2.2.2 (by decide)]; decide⟩)⟩

end QueueClaims

/-! ## The timestamp of the batch path -/

section TimestampClaims

open rules

/-- The tokens of `strings.Fields` are not empty and hold no white space. -/
theorem fieldsGo_tokens :
    ∀ (cs cur : List Char), (∀ c ∈ cur, strings.isSpace c = false) →
      ∀ tok ∈ strings.fieldsGo cur cs, tok ≠ [] ∧ ∀ c ∈ tok, strings.isSpace c = false := by
  intro cs
  induction cs with
  | nil =>
    intro cur hcur tok htok
    unfold strings.fieldsGo at htok
    split at htok
    · exact absurd htok (by simp)
    · rename_i hne
      simp only [List.mem_singleton] at htok
      subst htok
      exact ⟨by simpa using hne, fun c hc => hcur c (List.mem_reverse.mp hc)⟩
  | cons c rest ih =>
    intro cur hcur tok htok
    unfold strings.fieldsGo at htok
    split at htok
    · split at htok
      · exact ih [] (by simp) tok htok
      · rename_i hne
        rcases List.mem_cons.mp htok with h | h
        · subst h
          exact ⟨by simpa using hne, fun x hx => hcur x (List.mem_reverse.mp hx)⟩
        · exact ih [] (by simp) tok h
    · rename_i hsp
      apply ih (c :: cur) _ tok htok
      intro x hx
      rcases List.mem_cons.mp hx with h | h
      · subst h
        simpa using hsp
      · exact hcur x h

/-- C14, as stated, fails: the line has two tokens and its first token looks
like ISO-8601, yet the result is the current time and not the first token. -/
theorem C14_iso_token_needs_three_tokens :
    strings.Fields "2024-01-15T10:30:00Z ERROR" = ["2024-01-15T10:30:00Z", "ERROR"] ∧
    strings.Contains "2024-01-15T10:30:00Z" "T" = true ∧
    analyzer.extractTimestamp "2026-11-01T12:00:00Z" "2024-01-15T10:30:00Z ERROR" =
      "2026-11-01T12:00:00Z" := by
  refine ⟨by decide, by decide, by decide⟩

/-- C14, amended: the tokens of the line are its maximal runs without white
space; when the line has at least three tokens, `extractTimestamp` returns the
first three joined by single spaces if the first is at most 3 bytes long and
the second at most 2, otherwise the first token if it contains `T` or `-`, and
otherwise the current time; when the line has fewer than three tokens it
returns the current time. -/
theorem C14_extractTimestamp_cases (now line : String) :
    (∀ tok ∈ strings.Fields line, tok ≠ "" ∧ ∀ c ∈ tok.data, strings.isSpace c = false) ∧
    (∀ p0 p1 p2 rest, strings.Fields line = p0 :: p1 :: p2 :: rest →
      (p0.utf8ByteSize ≤ 3 ∧ p1.utf8ByteSize ≤ 2 →
        analyzer.extractTimestamp now line = p0 ++ " " ++ p1 ++ " " ++ p2) ∧
      (¬ (p0.utf8ByteSize ≤ 3 ∧ p1.utf8ByteSize ≤ 2) →
        (strings.Contains p0 "T" = true ∨ strings.Contains p0 "-" = true) →
        analyzer.extractTimestamp now line = p0) ∧
      (¬ (p0.utf8ByteSize ≤ 3 ∧ p1.utf8ByteSize ≤ 2) →
        strings.Contains p0 "T" = false → strings.Contains p0 "-" = false →
        analyzer.extractTimestamp now line = now)) ∧
    ((strings.Fields line).length < 3 → analyzer.extractTimestamp now line = now) := by
  refine ⟨?_, ?_, ?_⟩
  · intro tok htok
    unfold strings.Fields at htok
    obtain ⟨cs, hcs, rfl⟩ := List.mem_map.mp htok
    obtain ⟨h1, h2⟩ := fieldsGo_tokens line.data [] (by simp) cs hcs
    refine ⟨?_, h2⟩
    intro h
    apply h1
    have := congrArg String.data h
    simpa using this
  · intro p0 p1 p2 rest hparts
    have hlen : (p0 :: p1 :: p2 :: rest).length ≥ 3 := by simp
    refine ⟨?_, ?_, ?_⟩
    · intro hsys
      simp only [analyzer.extractTimestamp, hparts, hlen, if_true, List.getD_cons_zero,
        List.getD_cons_succ, hsys, and_self]
    · intro hsys hiso
      have hor : (strings.Contains p0 "T" || strings.Contains p0 "-") = true := by
        rcases hiso with h | h <;> simp [h]
      simp only [analyzer.extractTimestamp, hparts, hlen, if_true, List.getD_cons_zero,
        List.getD_cons_succ, hsys, if_false, hor]
    · intro hsys h1 h2
      simp only [analyzer.extractTimestamp, hparts, hlen, if_true, List.getD_cons_zero,
        List.getD_cons_succ, hsys, if_false, h1, h2, Bool.or_self, Bool.false_eq_true]
  · intro hlt
    have hlen : ¬ (strings.Fields line).length ≥ 3 := by omega
    simp only [analyzer.extractTimestamp, hlen, if_false]

/-- C14 at three lines of three tokens or more: a syslog prefix, an ISO-8601
first token, and a line with neither. -/
theorem C14_extractTimestamp_cases_witness :
    strings.Fields "Jan 15 10:30:00 host sshd: failed" =
      ["Jan", "15", "10:30:00", "host", "sshd:", "failed"] ∧
    analyzer.extractTimestamp "2026-11-01T12:00:00Z" "Jan 15 10:30:00 host sshd: failed" =
      "Jan" ++ " " ++ "15" ++ " " ++ "10:30:00" ∧
    analyzer.extractTimestamp "2026-11-01T12:00:00Z" "2024-01-15T10:30:00Z ERROR disk" =
      "2024-01-15T10:30:00Z" ∧
    analyzer.extractTimestamp "2026-11-01T12:00:00Z" "kernel: panic now" =
      "2026-11-01T12:00:00Z" :=
  ⟨by decide,
    ((C14_extractTimestamp_cases "2026-11-01T12:00:00Z" "Jan 15 10:30:00 host sshd: failed").2.1
      "Jan" "15" "10:30:00" ["host", "sshd:", "failed"] (by decide)).1 (by decide),
    by decide, by decide⟩

end TimestampClaims

/-! ## The history of the consumer -/

section HistoryClaims

open rules tailer handlers

/-- Cutting a list to its last 1000 entries before more entries are appended
does not change the last 1000 entries of the whole. -/
theorem drop_cut_append (xs rs : List AlertResponse) (n : Nat) :
    (xs.drop (xs.length - n) ++ rs).drop ((xs.drop (xs.length - n) ++ rs).length - n) =
      (xs ++ rs).drop ((xs ++ rs).length - n) := by
  have hle : xs.length - n ≤ xs.length := Nat.sub_le _ _
  rw [← List.drop_append_of_le_length hle, List.drop_drop]
  congr 1
  simp only [List.length_drop, List.length_append]
  omega

/-- One step of the loop of `collectAlerts`: the history is the last 1000 of
the history before followed by the new response. -/
theorem collectStep_alerts (replaceAll : String → String → String → String) (h : Handler)
    (a : Alert) :
    (collectStep replaceAll h a).alerts =
      (h.alerts ++ [toResponse replaceAll a]).drop
        ((h.alerts ++ [toResponse replaceAll a]).length - 1000) := by
  unfold collectStep
  by_cases hgt : (h.alerts ++ [toResponse replaceAll a]).length > 1000
  · simp only [hgt, if_true]
  · simp only [hgt, if_false]
    have hz : (h.alerts ++ [toResponse replaceAll a]).length - 1000 = 0 := by omega
    rw [hz, List.drop_zero]

/-- The history after the loop of `collectAlerts`: the last 1000 of what was
held followed by what was received. -/
theorem foldl_collectStep (replaceAll : String → String → String → String) :
    ∀ (received : List Alert) (h : Handler), h.alerts.length ≤ 1000 →
      (received.foldl (collectStep replaceAll) h).alerts =
        (h.alerts ++ received.map (toResponse replaceAll)).drop
          ((h.alerts ++ received.map (toResponse replaceAll)).length - 1000) := by
  intro received
  induction received with
  | nil =>
    intro h hh
    have hz : h.alerts.length - 1000 = 0 := by omega
    simp [hz]
  | cons a rest ih =>
    intro h hh
    have hstep := collectStep_alerts replaceAll h a
    have hlen : (collectStep replaceAll h a).alerts.length ≤ 1000 := by
      rw [hstep, List.length_drop]
      omega
    rw [List.foldl_cons, ih _ hlen, hstep, drop_cut_append]
    simp

/-- C15: the history retained by `collectAlerts` never exceeds 1000 entries
and, after `n` alerts have been received, it consists of the responses to the
last `min n 1000` of them, in arrival order. -/
theorem C15_history_last_1000 (replaceAll : String → String → String → String)
    (received : List Alert) :
    (collectAlerts replaceAll NewHandler received).alerts.length ≤ 1000 ∧
    (collectAlerts replaceAll NewHandler received).alerts.length = min received.length 1000 ∧
    (collectAlerts replaceAll NewHandler received).alerts =
      (received.drop (received.length - 1000)).map (toResponse replaceAll) ∧
    (collectAlerts replaceAll NewHandler received).alerts.map (fun r => r.Line) =
      (received.drop (received.length - min received.length 1000)).map (fun a => a.Line) ∧
    (∀ h : Handler, h.alerts.length ≤ 1000 →
      (collectAlerts replaceAll h received).alerts.length ≤ 1000) := by
  have h0 := foldl_collectStep replaceAll received NewHandler (by simp [NewHandler])
  have hall : (collectAlerts replaceAll NewHandler received).alerts =
      (received.drop (received.length - 1000)).map (toResponse replaceAll) := by
    unfold collectAlerts
    rw [h0]
    simp [NewHandler, List.map_drop]
  have hmin : received.length - min received.length 1000 = received.length - 1000 := by
    omega
  refine ⟨?_, ?_, hall, ?_, ?_⟩
  · rw [hall, List.length_map, List.length_drop]
    omega
  · rw [hall, List.length_map, List.length_drop]
    omega
  · rw [hall, hmin, List.map_map]
    apply List.map_congr_left
    intro a _
    rfl
  · intro h hh
    unfold collectAlerts
    rw [foldl_collectStep replaceAll received h hh, List.length_drop]
    omega

end HistoryClaims

/-! ## Chunks cut on a line boundary -/

section PartitionLemmas

open rules tailer

/-- The segments of a text are never none. -/
theorem splitChars_ne_nil (cs : List Char) : strings.splitChars cs ≠ [] := by
  cases cs with
  | nil => simp [strings.splitChars]
  | cons c rest =>
    unfold strings.splitChars
    split
    · simp
    · split <;> simp

/-- The segments of two texts joined by a newline are the segments of the one
followed by the segments of the other. -/
theorem splitChars_append_newline (xs ys : List Char) :
    strings.splitChars (xs ++ '\n' :: ys) = strings.splitChars xs ++ strings.splitChars ys := by
  induction xs with
  | nil => simp [strings.splitChars]
  | cons x rest ih =>
    by_cases hx : x = '\n'
    · simp [strings.splitChars, hx, ih]
    · have hne := splitChars_ne_nil rest
      rw [List.cons_append, strings.splitChars, if_neg hx, ih]
      conv_rhs => rw [strings.splitChars, if_neg hx]
      cases hs : strings.splitChars rest with
      | nil => exact absurd hs hne
      | cons seg more => simp

/-- A blank segment calls for no alert. -/
theorem segmentAlert_empty {E : RegexEngine} (m : Manager E) (path : String) :
    Spec.segmentAlert m path (String.mk []) = none := by
  simp [Spec.segmentAlert, strings.TrimSpace, strings.trimChars]

/-- The alerts a chunk calls for, when the chunk is cut after a newline. -/
theorem chunkAlerts_append {E : RegexEngine} (m : Manager E) (path : String)
    (body c2 : List Char) :
    Spec.chunkAlerts m path (String.mk ((body ++ ['\n']) ++ c2)) =
      Spec.chunkAlerts m path (String.mk (body ++ ['\n'])) ++
        Spec.chunkAlerts m path (String.mk c2) := by
  have h1 : (body ++ ['\n']) ++ c2 = body ++ '\n' :: c2 := by simp
  have h2 : strings.splitChars (body ++ ['\n']) = strings.splitChars body ++ [[]] := by
    rw [splitChars_append_newline]
    rfl
  simp only [Spec.chunkAlerts, strings.SplitNewline, h1, splitChars_append_newline, h2,
    List.map_append, List.filterMap_append, List.map_cons, List.map_nil, List.filterMap_cons,
    segmentAlert_empty, List.filterMap_nil, List.append_nil]

end PartitionLemmas

/-! ## Registered watchers have an open stop channel -/

section RegistryInvariant

open rules tailer

/-- The end of `StartWatching` keeps the stop channels of the registry open. -/
theorem register_stops_open {E : RegexEngine} (t : Tailer E) (fs : os.FileSys)
    (path : String) (file : os.File)
    (hinv : ∀ p w, mapIndex t.watchers p = some w → w.stop = false) :
    ∀ p w, mapIndex (register t fs path file).2.1.watchers p = some w → w.stop = false := by
  intro p w hw
  unfold register at hw
  split at hw
  · exact hinv p w hw
  · by_cases hp : p = path
    · subst hp
      simp only [mapIndex_mapAssign_self, Option.some.injEq] at hw
      subst hw
      rfl
    · simp only [mapIndex_mapAssign_other _ _ _ _ hp] at hw
      exact hinv p w hw

/-- The tailer after `StartWatching` is the tailer before it, or the one left
by the end of `StartWatching` on some open of the file. -/
theorem StartWatching_shape {E : RegexEngine} (t : Tailer E) (fs : os.FileSys)
    (host : os.Host) (path : String) :
    (StartWatching t fs host path).2.1 = t ∨
      ∃ fs1 file, (StartWatching t fs host path).2.1 = (register t fs1 path file).2.1 := by
  unfold StartWatching
  cases mapIndex t.watchers path with
  | some w => exact Or.inl rfl
  | none =>
    cases os.Open fs path with
    | some file => exact Or.inr ⟨fs, file, rfl⟩
    | none =>
      by_cases hne : os.IsNotExist fs path = true
      · simp only [hne, if_true]
        cases host.MkdirAll (host.Dir path) with
        | some e => exact Or.inl rfl
        | none =>
          cases host.WriteFile path with
          | error e => exact Or.inl rfl
          | ok ino =>
            simp only
            cases os.Open (os.created fs path ino) path with
            | some file => exact Or.inr ⟨_, file, rfl⟩
            | none => exact Or.inl rfl
      · simp only [hne]
        exact Or.inl rfl

/-- Every watcher in the registry has an open stop channel: this holds for
`NewTailer` and is kept by `StartWatching` and `StopWatching`. -/
theorem registry_stops_open {E : RegexEngine} (m : Manager E) (t : Tailer E)
    (fs : os.FileSys) (host : os.Host) (path : String)
    (hinv : ∀ p w, mapIndex t.watchers p = some w → w.stop = false) :
    (∀ p w, mapIndex (NewTailer m).watchers p = some w → w.stop = false) ∧
    (∀ p w, mapIndex (StartWatching t fs host path).2.1.watchers p = some w →
      w.stop = false) ∧
    (∀ t1 stopped, StopWatching t path = some (t1, stopped) →
      ∀ p w, mapIndex t1.watchers p = some w → w.stop = false) := by
  refine ⟨?_, ?_, ?_⟩
  · intro p w h
    simp [NewTailer, mapIndex] at h
  · intro p w hw
    rcases StartWatching_shape t fs host path with h | ⟨fs1, file, h⟩
    · rw [h] at hw
      exact hinv p w hw
    · rw [h] at hw
      exact register_stops_open t fs1 path file hinv p w hw
  · intro t1 stopped hs p w hw
    unfold StopWatching at hs
    split at hs
    · split at hs
      · exact absurd hs (by simp)
      · simp only [Option.some.injEq, Prod.mk.injEq] at hs
        obtain ⟨ht, _⟩ := hs
        subst ht
        by_cases hp : p = path
        · subst hp
          simp only [mapIndex_mapDelete_self] at hw
          exact absurd hw (by simp)
        · simp only [mapIndex_mapDelete_other _ _ _ hp] at hw
          exact hinv p w hw
    · simp only [Option.some.injEq, Prod.mk.injEq] at hs
      obtain ⟨ht, _⟩ := hs
      subst ht
      exact hinv p w hw

end RegistryInvariant

/-! ## Partition of the appended bytes into poll cycles -/

section PartitionClaims

open rules tailer

/-- A poll cycle on a sound file that holds the bytes `data`, not none, after
the offset, read through an open handle: these bytes are consumed and their
text is processed. -/
theorem readNewLines_appended {E : RegexEngine} (t : Tailer E) (config : Config E)
    (hconfig : t.ruleManager.config = some config) (fs : os.FileSys)
    (watcher : fileWatcher) (base data : List Nat)
    (hopen : watcher.file.closed = false)
    (hlook : fs.lookup watcher.path = some watcher.file.ino)
    (hdata : (fs.inode watcher.file.ino).data = base ++ data)
    (hsound : (fs.inode watcher.file.ino).faulty = false)
    (hpos : watcher.lastPos = base.length) (hne : data ≠ []) :
    readNewLines t fs watcher =
      some ({ t with
              alerts := List.foldl offer t.alerts
                (Spec.chunkAlerts t.ruleManager watcher.path (strings.Text data)) },
            { watcher with
              file := { watcher.file with offset := base.length + data.length },
              lastPos := base.length + data.length }) := by
  have hstat : os.Stat fs watcher.path = some (base.length + data.length) := by
    simp only [os.Stat, hlook, hdata]
    rw [List.length_append]
  have hlen : data.length > 0 := List.length_pos.mpr hne
  have hr := readNewLines_read t config hconfig fs watcher (base.length + data.length) hstat
    (by omega) hopen hsound
  have hchunk : ((fs.inode watcher.file.ino).data.drop watcher.lastPos).take
      (base.length + data.length - watcher.lastPos) = data := by
    rw [hdata, hpos, Nat.add_sub_cancel_left, List.drop_left, List.take_length]
  rw [hchunk] at hr
  rw [hr, hpos]

/-- C16: when the chunk `c1` ends with a newline, processing `c1` and then `c2`
gives the alerts of processing `c1 ++ c2` at once: the alerts called for are
the same sequence, and the chunk loop leaves the same queue (with room, the
queue before followed by these alerts). For bytes `b1` that end with a newline
byte and bytes `b2` appended to a watched file, the text of `b1 ++ b2` is the
text of `b1` followed by the text of `b2`, so are the alerts, and two poll
cycles that read `b1` and then `b2` leave the tailer and the watcher as one poll
cycle that reads `b1 ++ b2` does, the offset advanced by the number of bytes. -/
theorem C16_partition_on_line_boundary {E : RegexEngine} (t : Tailer E) (config : Config E)
    (hconfig : t.ruleManager.config = some config) (watcher : fileWatcher) (c1 c2 : String)
    (hnl : c1.data.getLast? = some '\n') :
    Spec.chunkAlerts t.ruleManager watcher.path (c1 ++ c2) =
      Spec.chunkAlerts t.ruleManager watcher.path c1 ++
        Spec.chunkAlerts t.ruleManager watcher.path c2 ∧
    (∃ t1 t2, processChunk t watcher.path c1 = some t1 ∧
      processChunk t1 watcher.path c2 = some t2 ∧
      processChunk t watcher.path (c1 ++ c2) = some t2 ∧
      (t.alerts.length + (Spec.chunkAlerts t.ruleManager watcher.path (c1 ++ c2)).length ≤ 100 →
        t2.alerts = t.alerts ++ (Spec.chunkAlerts t.ruleManager watcher.path c1 ++
          Spec.chunkAlerts t.ruleManager watcher.path c2))) ∧
    (∀ (fs1 fs2 : os.FileSys) (base b1 b2 : List Nat),
      b1.getLast? = some 10 →
      watcher.file.closed = false → watcher.lastPos = base.length →
      fs1.lookup watcher.path = some watcher.file.ino →
      fs2.lookup watcher.path = some watcher.file.ino →
      (fs1.inode watcher.file.ino).data = base ++ b1 →
      (fs2.inode watcher.file.ino).data = base ++ (b1 ++ b2) →
      (fs1.inode watcher.file.ino).faulty = false →
      (fs2.inode watcher.file.ino).faulty = false →
      strings.Text (b1 ++ b2) = strings.Text b1 ++ strings.Text b2 ∧
      Spec.chunkAlerts t.ruleManager watcher.path (strings.Text (b1 ++ b2)) =
        Spec.chunkAlerts t.ruleManager watcher.path (strings.Text b1) ++
          Spec.chunkAlerts t.ruleManager watcher.path (strings.Text b2) ∧
      pollCycles t watcher [fs1, fs2] = pollCycles t watcher [fs2] ∧
      ∃ t2 w2, pollCycles t watcher [fs2] = some (t2, w2) ∧
        t2.alerts = List.foldl offer t.alerts
          (Spec.chunkAlerts t.ruleManager watcher.path (strings.Text (b1 ++ b2))) ∧
        (t.alerts.length +
            (Spec.chunkAlerts t.ruleManager watcher.path (strings.Text (b1 ++ b2))).length ≤ 100 →
          t2.alerts = t.alerts ++ (Spec.chunkAlerts t.ruleManager watcher.path (strings.Text b1) ++
            Spec.chunkAlerts t.ruleManager watcher.path (strings.Text b2))) ∧
        w2.lastPos = watcher.lastPos + (b1 ++ b2).length) := by
  obtain ⟨body, hbody⟩ := List.getLast?_eq_some_iff.mp hnl
  have hc1 : c1 = String.mk (body ++ ['\n']) := by
    cases c1
    simp only at hbody
    rw [hbody]
  have happ : c1 ++ c2 = String.mk ((body ++ ['\n']) ++ c2.data) := by
    rw [hc1]
    rfl
  have hA : Spec.chunkAlerts t.ruleManager watcher.path (c1 ++ c2) =
      Spec.chunkAlerts t.ruleManager watcher.path c1 ++
        Spec.chunkAlerts t.ruleManager watcher.path c2 := by
    rw [happ, chunkAlerts_append, ← hc1]
  have hfold : List.foldl offer (List.foldl offer t.alerts
        (Spec.chunkAlerts t.ruleManager watcher.path c1))
        (Spec.chunkAlerts t.ruleManager watcher.path c2) =
      List.foldl offer t.alerts (Spec.chunkAlerts t.ruleManager watcher.path (c1 ++ c2)) := by
    rw [hA, List.foldl_append]
  refine ⟨hA, ?_, ?_⟩
  · have h1 := processChunk_loaded t config hconfig watcher.path c1
    have h2 := processChunk_loaded
      { t with
        alerts := List.foldl offer t.alerts
          (Spec.chunkAlerts t.ruleManager watcher.path c1) } config hconfig watcher.path c2
    have h3 := processChunk_loaded t config hconfig watcher.path (c1 ++ c2)
    refine ⟨_, _, h1, h2, ?_, ?_⟩
    · rw [h3]
      simp only [hfold]
    · intro hroom
      simp only [hfold]
      rw [foldl_offer_room _ _ hroom, hA]
  · intro fs1 fs2 base b1 b2 hb1 hopen hpos hl1 hl2 hd1 hd2 hs1 hs2
    obtain ⟨bbody, hbb⟩ := List.getLast?_eq_some_iff.mp hb1
    have hT : strings.Text (b1 ++ b2) = strings.Text b1 ++ strings.Text b2 := by
      rw [hbb]
      exact Text_append_newline bbody b2
    obtain ⟨cs, hcs⟩ := Text_newline_last bbody
    have hB : Spec.chunkAlerts t.ruleManager watcher.path (strings.Text (b1 ++ b2)) =
        Spec.chunkAlerts t.ruleManager watcher.path (strings.Text b1) ++
          Spec.chunkAlerts t.ruleManager watcher.path (strings.Text b2) := by
      rw [hT, hbb, hcs]
      exact chunkAlerts_append t.ruleManager watcher.path cs (strings.Text b2).data
    have hfoldB : List.foldl offer (List.foldl offer t.alerts
          (Spec.chunkAlerts t.ruleManager watcher.path (strings.Text b1)))
          (Spec.chunkAlerts t.ruleManager watcher.path (strings.Text b2)) =
        List.foldl offer t.alerts
          (Spec.chunkAlerts t.ruleManager watcher.path (strings.Text (b1 ++ b2))) := by
      rw [hB, List.foldl_append]
    have hne1 : b1 ≠ [] := by
      rw [hbb]
      simp
    have hne12 : b1 ++ b2 ≠ [] := by
      rw [hbb]
      simp
    -- the single cycle that reads both chunks
    have hone := readNewLines_appended t config hconfig fs2 watcher base (b1 ++ b2) hopen
      hl2 hd2 hs2 hpos hne12
    -- the first of the two cycles
    have hfirst := readNewLines_appended t config hconfig fs1 watcher base b1 hopen
      hl1 hd1 hs1 hpos hne1
    have hlen12 : base.length + b1.length + b2.length = base.length + (b1 ++ b2).length := by
      rw [List.length_append]
      omega
    have hsecond : readNewLines
        { t with
          alerts := List.foldl offer t.alerts
            (Spec.chunkAlerts t.ruleManager watcher.path (strings.Text b1)) } fs2
        { watcher with
          file := { watcher.file with offset := base.length + b1.length },
          lastPos := base.length + b1.length } =
        some ({ t with
                alerts := List.foldl offer t.alerts
                  (Spec.chunkAlerts t.ruleManager watcher.path (strings.Text (b1 ++ b2))) },
              { watcher with
                file := { watcher.file with offset := base.length + (b1 ++ b2).length },
                lastPos := base.length + (b1 ++ b2).length }) := by
      by_cases hc2e : b2 = []
      · have hstat : os.Stat fs2 watcher.path = some (base.length + b1.length) := by
          simp only [os.Stat, hl2, hd2]
          rw [hc2e, List.append_nil, List.length_append]
        have hng := readNewLines_not_grown
          { t with
            alerts := List.foldl offer t.alerts
              (Spec.chunkAlerts t.ruleManager watcher.path (strings.Text b1)) } fs2
          { watcher with
            file := { watcher.file with offset := base.length + b1.length },
            lastPos := base.length + b1.length } (base.length + b1.length) hstat
          (Nat.le_refl _)
        rw [hng, if_neg (Nat.lt_irrefl _), hc2e, List.append_nil]
      · have hsec := readNewLines_appended
          { t with
            alerts := List.foldl offer t.alerts
              (Spec.chunkAlerts t.ruleManager watcher.path (strings.Text b1)) } config hconfig
          fs2
          { watcher with
            file := { watcher.file with offset := base.length + b1.length },
            lastPos := base.length + b1.length } (base ++ b1) b2 hopen hl2
          (by
            show (fs2.inode watcher.file.ino).data = _
            rw [hd2, List.append_assoc])
          hs2 (by simp) hc2e
        rw [hsec]
        simp only [List.length_append, hlen12]
        have hf := hfoldB
        simp only at hf
        exact congrArg some (Prod.ext (by simp only; rw [← hf]) rfl)
    refine ⟨hT, hB, ?_,
      { t with
        alerts := List.foldl offer t.alerts
          (Spec.chunkAlerts t.ruleManager watcher.path (strings.Text (b1 ++ b2))) },
      { watcher with
        file := { watcher.file with offset := base.length + (b1 ++ b2).length },
        lastPos := base.length + (b1 ++ b2).length }, ?_, rfl, ?_, ?_⟩
    · simp only [pollCycles, hfirst, hsecond, hone]
    · simp only [pollCycles, hone]
    · intro hroom
      show List.foldl offer t.alerts _ = _
      rw [foldl_offer_room _ _ hroom, hB]
    · simp only [hpos]

/-- C16 at two chunks of the example log: the first ends with a newline, and
the alerts of the two chunks are the alerts of their concatenation, also when
the chunks hold characters of more than one byte. -/
theorem C16_partition_on_line_boundary_witness :
    (Demo.tailerOf Demo.demoConfig).ruleManager.config = some Demo.demoConfig ∧
    "ERROR disk failure\nall fine\n".data.getLast? = some '\n' ∧
    Spec.chunkAlerts (Demo.tailerOf Demo.demoConfig).ruleManager "app.log"
        ("ERROR disk failure\nall fine\n" ++ "disk full\nERROR ignore") =
      [{ Source := "app.log", LogFile := "app.log", Line := "ERROR disk failure",
         MatchedRules := ["errors", "disk"], Severity := "critical" },
       { Source := "app.log", LogFile := "app.log", Line := "disk full",
         MatchedRules := ["disk"], Severity := "critical" }] ∧
    Spec.chunkAlerts (Demo.tailerOf Demo.demoConfig).ruleManager (Demo.watcherAt 0).path
        ("ERROR disk failure\nall fine\n" ++ "disk full\nERROR ignore") =
      Spec.chunkAlerts (Demo.tailerOf Demo.demoConfig).ruleManager (Demo.watcherAt 0).path
          "ERROR disk failure\nall fine\n" ++
        Spec.chunkAlerts (Demo.tailerOf Demo.demoConfig).ruleManager (Demo.watcherAt 0).path
          "disk full\nERROR ignore" ∧
    (strings.Bytes "ERROR café\n").getLast? = some 10 ∧
    (strings.Bytes "ERROR café\n").length = 12 ∧
    pollCycles (Demo.tailerOf Demo.demoConfig) (Demo.watcherAt 0)
        [Demo.fsWith "ERROR café\n", Demo.fsWith "ERROR café\ndisk é\n"] =
      pollCycles (Demo.tailerOf Demo.demoConfig) (Demo.watcherAt 0)
        [Demo.fsWith "ERROR café\ndisk é\n"] :=
  ⟨rfl, by decide, by decide,
    (C16_partition_on_line_boundary (Demo.tailerOf Demo.demoConfig) Demo.demoConfig rfl
      (Demo.watcherAt 0) "ERROR disk failure\nall fine\n" "disk full\nERROR ignore"
      (by decide)).1,
    by decide, by decide,
    ((C16_partition_on_line_boundary (Demo.tailerOf Demo.demoConfig) Demo.demoConfig rfl
      (Demo.watcherAt 0) "ERROR disk failure\nall fine\n" "disk full\nERROR ignore"
      (by decide)).2.2 (Demo.fsWith "ERROR café\n") (Demo.fsWith "ERROR café\ndisk é\n") []
      (strings.Bytes "ERROR café\n") (strings.Bytes "disk é\n")
      (by decide) rfl rfl rfl rfl rfl (by decide) rfl rfl).2.2.1⟩

end PartitionClaims
